import Mathlib

/-!
# Verification of the vector-indexed knowledge-graph core

A shallow embedding, in Lean 4, of the core services of the
`gpt-notes-to-tasks` repository:

* `services/vector_store/store_service.py`  (`VectorStoreService`)
* `services/vector_store/embedding_service.py`  (`EmbeddingService`)
* `services/vector_store/chunking_service.py`  (`ChunkingService`)
* `services/knowledge/link_service.py`  (`LinkService`)

Modelling conventions:

* ChromaDB collections are modelled as lists of records; `upsert` replaces
  the first record with the same id (ids are unique in well-formed stores)
  and otherwise appends, matching ChromaDB semantics.
* Python floats are modelled as rationals (`ℚ`).
* Python `hash(url)` (deterministic within one process) is modelled by an
  arbitrary function `hashUrl : String → String` supplied as a parameter.
* External collaborators (the ChromaDB query engine, the LLM, the embedding
  backends, `os.path.normpath`, the YAML parser) are parameters of the
  functions that call them.
-/

set_option maxHeartbeats 1000000
set_option maxRecDepth 16000

namespace NotesKG

/-! ## Generic keyed upsert on lists (ChromaDB collection semantics) -/

variable {α : Type} {β : Type}

/-- `upsertBy key x l` models a ChromaDB single-record upsert: the first
record of `l` whose key equals `key x` is replaced by `x`; if no record
matches, `x` is appended at the end. -/
def upsertBy (key : α → String) (x : α) : List α → List α
  | [] => [x]
  | y :: ys => if key y = key x then x :: ys else y :: upsertBy key x ys

theorem mem_upsertBy {key : α → String} {x z : α} :
    ∀ {l : List α}, z ∈ upsertBy key x l → z = x ∨ z ∈ l := by
  intro l
  induction l with
  | nil => intro h; simpa [upsertBy] using h
  | cons y ys ih =>
    intro h
    by_cases hk : key y = key x
    · simp only [upsertBy, if_pos hk, List.mem_cons] at h
      rcases h with h | h
      · exact Or.inl h
      · exact Or.inr (List.mem_cons_of_mem _ h)
    · simp only [upsertBy, if_neg hk, List.mem_cons] at h
      rcases h with h | h
      · exact Or.inr (by simp [h])
      · rcases ih h with h1 | h1
        · exact Or.inl h1
        · exact Or.inr (List.mem_cons_of_mem _ h1)

theorem upsertBy_eq_append {key : α → String} {x : α} :
    ∀ {l : List α}, (∀ y ∈ l, key y ≠ key x) → upsertBy key x l = l ++ [x] := by
  intro l
  induction l with
  | nil => intro _; rfl
  | cons y ys ih =>
    intro h
    have hy : key y ≠ key x := h y (List.mem_cons_self _ _)
    simp only [upsertBy, if_neg hy, List.cons_append, List.cons.injEq, true_and]
    exact ih fun z hz => h z (List.mem_cons_of_mem _ hz)

/-- Keys present in a list. -/
def keysOf (key : α → String) (l : List α) : List String := l.map key

theorem mem_keysOf_upsertBy {key : α → String} {x : α} {k : String} :
    ∀ {l : List α}, k ∈ keysOf key (upsertBy key x l) ↔ k ∈ keysOf key l ∨ k = key x := by
  intro l
  induction l with
  | nil => simp [upsertBy, keysOf]
  | cons y ys ih =>
    simp only [keysOf] at ih ⊢
    by_cases hk : key y = key x
    · rw [upsertBy, if_pos hk]
      simp only [List.map_cons, List.mem_cons, hk]
      tauto
    · rw [upsertBy, if_neg hk]
      simp only [List.map_cons, List.mem_cons]
      rw [ih]
      tauto

theorem length_upsertBy_of_key_mem {key : α → String} {x : α} :
    ∀ {l : List α}, key x ∈ keysOf key l →
      (upsertBy key x l).length = l.length := by
  intro l
  induction l with
  | nil => intro h; simp [keysOf] at h
  | cons y ys ih =>
    intro h
    by_cases hk : key y = key x
    · simp [upsertBy, if_pos hk]
    · have : key x ∈ keysOf key ys := by
        simp only [keysOf, List.map_cons, List.mem_cons] at h
        rcases h with h | h
        · exact absurd h.symm hk
        · exact h
      simp [upsertBy, if_neg hk, ih this]

/-- Folding a list of records into a collection with `upsertBy`. -/
def foldUpsert (key : α → String) (recs : List α) (init : List α) : List α :=
  recs.foldl (fun acc r => upsertBy key r acc) init

theorem mem_foldUpsert {key : α → String} {z : α} :
    ∀ {recs init : List α}, z ∈ foldUpsert key recs init → z ∈ recs ∨ z ∈ init := by
  intro recs
  induction recs with
  | nil => intro init h; exact Or.inr h
  | cons r rs ih =>
    intro init h
    have h1 := @ih (upsertBy key r init) h
    rcases h1 with h1 | h1
    · exact Or.inl (List.mem_cons_of_mem _ h1)
    · rcases mem_upsertBy h1 with h2 | h2
      · exact Or.inl (by simp [h2])
      · exact Or.inr h2

theorem mem_keysOf_foldUpsert_of_mem_init {key : α → String} {k : String} :
    ∀ {recs init : List α}, k ∈ keysOf key init → k ∈ keysOf key (foldUpsert key recs init) := by
  intro recs
  induction recs with
  | nil => intro init h; exact h
  | cons r rs ih =>
    intro init h
    exact ih (mem_keysOf_upsertBy.mpr (Or.inl h))

theorem mem_keysOf_foldUpsert_of_mem_recs {key : α → String} {k : String} :
    ∀ {recs init : List α}, k ∈ keysOf key recs → k ∈ keysOf key (foldUpsert key recs init) := by
  intro recs
  induction recs with
  | nil => intro init h; simp [keysOf] at h
  | cons r rs ih =>
    intro init h
    simp only [keysOf, List.map_cons, List.mem_cons] at h
    show k ∈ keysOf key (foldUpsert key rs (upsertBy key r init))
    rcases h with h | h
    · exact mem_keysOf_foldUpsert_of_mem_init (mem_keysOf_upsertBy.mpr (Or.inr h))
    · exact ih h

theorem length_foldUpsert_of_keys_mem {key : α → String} :
    ∀ {recs init : List α}, (∀ r ∈ recs, key r ∈ keysOf key init) →
      (foldUpsert key recs init).length = init.length := by
  intro recs
  induction recs with
  | nil => intro init _; rfl
  | cons r rs ih =>
    intro init h
    have hr : key r ∈ keysOf key init := h r (List.mem_cons_self _ _)
    have hlen := length_upsertBy_of_key_mem (x := r) hr
    have hrest : ∀ q ∈ rs, key q ∈ keysOf key (upsertBy key r init) := fun q hq =>
      mem_keysOf_upsertBy.mpr (Or.inl (h q (List.mem_cons_of_mem _ hq)))
    calc (foldUpsert key (r :: rs) init).length
        = (foldUpsert key rs (upsertBy key r init)).length := rfl
      _ = (upsertBy key r init).length := ih hrest
      _ = init.length := hlen

theorem foldUpsert_eq_append {key : α → String} :
    ∀ {recs init : List α}, (∀ r ∈ recs, ∀ y ∈ init, key y ≠ key r) →
      (keysOf key recs).Nodup → foldUpsert key recs init = init ++ recs := by
  intro recs
  induction recs with
  | nil => intro init _ _; simp [foldUpsert]
  | cons r rs ih =>
    intro init h hnd
    have h1 : upsertBy key r init = init ++ [r] :=
      upsertBy_eq_append (fun y hy => h r (List.mem_cons_self _ _) y hy)
    simp only [keysOf, List.map_cons, List.nodup_cons] at hnd
    have h2 : ∀ q ∈ rs, ∀ y ∈ init ++ [r], key y ≠ key q := by
      intro q hq y hy
      rcases List.mem_append.mp hy with hy | hy
      · exact h q (List.mem_cons_of_mem _ hq) y hy
      · have : y = r := by simpa using hy
        subst this
        intro hcon
        exact hnd.1 (by simpa [keysOf, hcon] using List.mem_map_of_mem key hq)
    calc foldUpsert key (r :: rs) init
        = foldUpsert key rs (upsertBy key r init) := rfl
      _ = foldUpsert key rs (init ++ [r]) := by rw [h1]
      _ = (init ++ [r]) ++ rs := ih h2 hnd.2
      _ = init ++ (r :: rs) := by simp

theorem filter_upsertBy {key : α → String} {p : α → Bool} {x : α} (hp : p x = true) :
    ∀ {l : List α}, (∀ y ∈ l, p y = false → key y ≠ key x) →
      (upsertBy key x l).filter p = upsertBy key x (l.filter p) := by
  intro l
  induction l with
  | nil => intro _; simp [upsertBy, List.filter, hp]
  | cons y ys ih =>
    intro h
    by_cases hk : key y = key x
    · have hy : p y = true := by
        by_contra hcon
        exact h y (List.mem_cons_self _ _) (Bool.eq_false_iff.mpr hcon) hk
      simp [upsertBy, if_pos hk, List.filter_cons, hy, hp]
    · have hrec := ih fun z hz hpz => h z (List.mem_cons_of_mem _ hz) hpz
      by_cases hy : p y = true
      · simp [upsertBy, if_neg hk, List.filter_cons, hy, hrec, hp]
      · have hy2 : p y = false := Bool.eq_false_iff.mpr hy
        simp [upsertBy, if_neg hk, List.filter_cons, hy2, hrec]

theorem filter_foldUpsert {key : α → String} {p : α → Bool} :
    ∀ {recs init : List α}, (∀ r ∈ recs, p r = true) →
      (∀ y ∈ init, p y = false → ∀ r ∈ recs, key y ≠ key r) →
      (foldUpsert key recs init).filter p = foldUpsert key recs (init.filter p) := by
  intro recs
  induction recs with
  | nil => intro init _ _; rfl
  | cons r rs ih =>
    intro init hall hk
    have hpr : p r = true := hall r (List.mem_cons_self _ _)
    have step : (upsertBy key r init).filter p = upsertBy key r (init.filter p) :=
      filter_upsertBy hpr (fun y hy hpy => hk y hy hpy r (List.mem_cons_self _ _))
    have hk2 : ∀ y ∈ upsertBy key r init, p y = false → ∀ q ∈ rs, key y ≠ key q := by
      intro y hy hpy q hq
      rcases mem_upsertBy hy with h1 | h1
      · subst h1; rw [hpr] at hpy; cases hpy
      · exact hk y h1 hpy q (List.mem_cons_of_mem _ hq)
    calc (foldUpsert key (r :: rs) init).filter p
        = (foldUpsert key rs (upsertBy key r init)).filter p := rfl
      _ = foldUpsert key rs ((upsertBy key r init).filter p) :=
          ih (fun q hq => hall q (List.mem_cons_of_mem _ hq)) hk2
      _ = foldUpsert key rs (upsertBy key r (init.filter p)) := by rw [step]
      _ = foldUpsert key (r :: rs) (init.filter p) := rfl

theorem find?_upsertBy_key {key : α → String} {x : α} :
    ∀ {l : List α}, (upsertBy key x l).find? (fun r => key r = key x) = some x := by
  intro l
  induction l with
  | nil => simp [upsertBy, List.find?]
  | cons y ys ih =>
    by_cases hk : key y = key x
    · simp [upsertBy, if_pos hk, List.find?]
    · simp [upsertBy, if_neg hk, List.find?, hk, ih]

end NotesKG

namespace NotesKG

/-! ## Decimal rendering of naturals (Python f-string `{i}`) and its injectivity -/

/-- Little-endian decimal digits by fuelled recursion (kernel-reducible). -/
def decDigitsAux : Nat → Nat → List Nat
  | 0, _ => []
  | _ + 1, 0 => []
  | fuel + 1, n + 1 => (n + 1) % 10 :: decDigitsAux fuel ((n + 1) / 10)

/-- Little-endian decimal digits of `n`. -/
def decDigits (n : Nat) : List Nat := decDigitsAux n n

/-- Decode little-endian decimal digits. -/
def undigits : List Nat → Nat
  | [] => 0
  | d :: ds => d + 10 * undigits ds

theorem undigits_decDigitsAux :
    ∀ (fuel n : Nat), n ≤ fuel → undigits (decDigitsAux fuel n) = n := by
  intro fuel
  induction fuel with
  | zero =>
    intro n hn
    interval_cases n
    rfl
  | succ fuel ih =>
    intro n hn
    match n with
    | 0 => rfl
    | m + 1 =>
      have hdiv : (m + 1) / 10 ≤ fuel := by
        have h1 : (m + 1) / 10 < m + 1 := Nat.div_lt_self (Nat.succ_pos m) (by norm_num)
        omega
      calc undigits (decDigitsAux (fuel + 1) (m + 1))
          = (m + 1) % 10 + 10 * undigits (decDigitsAux fuel ((m + 1) / 10)) := rfl
        _ = (m + 1) % 10 + 10 * ((m + 1) / 10) := by rw [ih _ hdiv]
        _ = m + 1 := Nat.mod_add_div (m + 1) 10

theorem undigits_decDigits (n : Nat) : undigits (decDigits n) = n :=
  undigits_decDigitsAux n n le_rfl

theorem decDigits_injective : Function.Injective decDigits := by
  intro a b h
  have := congrArg undigits h
  rwa [undigits_decDigits, undigits_decDigits] at this

theorem decDigitsAux_lt_ten :
    ∀ (fuel n : Nat), ∀ d ∈ decDigitsAux fuel n, d < 10 := by
  intro fuel
  induction fuel with
  | zero => intro n d hd; simp [decDigitsAux] at hd
  | succ fuel ih =>
    intro n d hd
    match n with
    | 0 => simp [decDigitsAux] at hd
    | m + 1 =>
      simp only [decDigitsAux, List.mem_cons] at hd
      rcases hd with hd | hd
      · subst hd; exact Nat.mod_lt _ (by norm_num)
      · exact ih _ d hd

/-- Decimal digit characters, as Python prints them. -/
def digitChar : Nat → Char
  | 0 => '0'
  | 1 => '1'
  | 2 => '2'
  | 3 => '3'
  | 4 => '4'
  | 5 => '5'
  | 6 => '6'
  | 7 => '7'
  | 8 => '8'
  | 9 => '9'
  | _ => '*'

theorem digitChar_injOn {a b : Nat} (ha : a < 10) (hb : b < 10)
    (h : digitChar a = digitChar b) : a = b := by
  interval_cases a <;> interval_cases b <;> simp_all [digitChar]

theorem map_digitChar_injOn :
    ∀ (l1 l2 : List Nat), (∀ d ∈ l1, d < 10) → (∀ d ∈ l2, d < 10) →
      l1.map digitChar = l2.map digitChar → l1 = l2 := by
  intro l1
  induction l1 with
  | nil =>
    intro l2 _ _ h
    cases l2 with
    | nil => rfl
    | cons y ys => simp at h
  | cons x xs ih =>
    intro l2 h1 h2 h
    cases l2 with
    | nil => simp at h
    | cons y ys =>
      simp only [List.map_cons, List.cons.injEq] at h
      have hx : x = y := digitChar_injOn (h1 x (List.mem_cons_self _ _))
        (h2 y (List.mem_cons_self _ _)) h.1
      have hxs : xs = ys := ih ys (fun d hd => h1 d (List.mem_cons_of_mem _ hd))
        (fun d hd => h2 d (List.mem_cons_of_mem _ hd)) h.2
      rw [hx, hxs]

/-- Decimal rendering of a natural number, as Python `str(i)` / f-string
interpolation renders it. -/
def natRepr (n : Nat) : String :=
  if n = 0 then "0" else ⟨((decDigits n).reverse.map digitChar)⟩

theorem natRepr_injective : Function.Injective natRepr := by
  intro a b h
  by_cases ha : a = 0 <;> by_cases hb : b = 0
  · rw [ha, hb]
  · exfalso
    rw [natRepr, natRepr, if_pos ha, if_neg hb] at h
    have hdata : ['0'] = (decDigits b).reverse.map digitChar := congrArg String.data h
    have h0 : [(0 : Nat)].map digitChar = (decDigits b).reverse.map digitChar := by
      simpa [digitChar] using hdata
    have : [(0 : Nat)] = (decDigits b).reverse :=
      map_digitChar_injOn _ _ (by simp) (fun d hd => decDigitsAux_lt_ten _ _ d (by
        simpa using List.mem_reverse.mp hd)) h0
    have hdig : decDigits b = [0] := by
      have := congrArg List.reverse this
      simpa using this.symm
    have := undigits_decDigits b
    rw [hdig] at this
    simp [undigits] at this
    exact hb this.symm
  · exfalso
    rw [natRepr, natRepr, if_neg ha, if_pos hb] at h
    have hdata : (decDigits a).reverse.map digitChar = ['0'] := congrArg String.data h
    have h0 : (decDigits a).reverse.map digitChar = [(0 : Nat)].map digitChar := by
      simpa [digitChar] using hdata
    have : (decDigits a).reverse = [(0 : Nat)] :=
      map_digitChar_injOn _ _ (fun d hd => decDigitsAux_lt_ten _ _ d (by
        simpa using List.mem_reverse.mp hd)) (by simp) h0
    have hdig : decDigits a = [0] := by
      have := congrArg List.reverse this
      simpa using this
    have := undigits_decDigits a
    rw [hdig] at this
    simp [undigits] at this
    exact ha this.symm
  · rw [natRepr, natRepr, if_neg ha, if_neg hb] at h
    have hdata : (decDigits a).reverse.map digitChar = (decDigits b).reverse.map digitChar :=
      congrArg String.data h
    have hrev : (decDigits a).reverse = (decDigits b).reverse :=
      map_digitChar_injOn _ _
        (fun d hd => decDigitsAux_lt_ten _ _ d (by simpa using List.mem_reverse.mp hd))
        (fun d hd => decDigitsAux_lt_ten _ _ d (by simpa using List.mem_reverse.mp hd)) hdata
    exact decDigits_injective (List.reverse_injective hrev)

theorem string_append_left_cancel {s t u : String} (h : s ++ t = s ++ u) : t = u := by
  have hdata : s.data ++ t.data = s.data ++ u.data := by
    have h1 := congrArg String.data h
    simpa using h1
  have := List.append_cancel_left hdata
  cases t; cases u
  exact congrArg String.mk this

/-! ## Kernel-reducible string primitives

Python string operations used by the services, implemented over `List Char`
(the core `String.splitOn` / `trim` / `replace` use byte-position loops that
the kernel cannot evaluate; these scanners compute by `decide` / `rfl`). -/

/-- Python `s.startswith(pre)`, computed on character lists. -/
def pyStartsWith (pre s : String) : Bool := pre.data.isPrefixOf s.data

/-- Python `s.endswith(suf)`, computed on character lists. -/
def pyEndsWith (suf s : String) : Bool := suf.data.reverse.isPrefixOf s.data.reverse

/-- Python `s.split(sep)` / Lean `String.splitOn` scanner (non-empty
separator; non-overlapping, left to right). -/
def splitSepAux (sep : List Char) : Nat → List Char → List Char → List (List Char)
  | 0, acc, l => [acc.reverse ++ l]
  | fuel + 1, acc, l =>
    if sep.isPrefixOf l then acc.reverse :: splitSepAux sep fuel [] (l.drop sep.length)
    else
      match l with
      | [] => [acc.reverse]
      | c :: rest => splitSepAux sep fuel (c :: acc) rest

/-- Python `s.split(sep)` for a non-empty separator. -/
def pySplit (s sep : String) : List String :=
  (splitSepAux sep.data (s.data.length + 1) [] s.data).map fun cs => ⟨cs⟩

/-- Python whitespace test (`str.strip` default set, ASCII part). -/
def pyIsSpace (c : Char) : Bool :=
  c.isWhitespace || c = Char.ofNat 11 || c = Char.ofNat 12

/-- Python `s.strip()`. -/
def pyStrip (s : String) : String :=
  ⟨((s.data.dropWhile pyIsSpace).reverse.dropWhile pyIsSpace).reverse⟩

/-- Python `s.rstrip()`. -/
def pyRstrip (s : String) : String :=
  ⟨(s.data.reverse.dropWhile pyIsSpace).reverse⟩

/-- Python `s.replace(old, new)` scanner (non-empty `old`; non-overlapping,
left to right). -/
def replaceSepAux (old new : List Char) : Nat → List Char → List Char
  | 0, l => l
  | fuel + 1, l =>
    if old.isPrefixOf l then new ++ replaceSepAux old new fuel (l.drop old.length)
    else
      match l with
      | [] => []
      | c :: rest => c :: replaceSepAux old new fuel rest

/-- Python `s.replace(old, new)` for non-empty `old`. -/
def pyReplace (s old new : String) : String :=
  ⟨replaceSepAux old.data new.data (s.data.length + 1) s.data⟩

end NotesKG

namespace NotesKG

/-! ## Vector Store data model (`services/vector_store/store_service.py`)

Each ChromaDB collection is a list of records.  Record fields mirror the
dictionaries the Python code builds (`add_document`,
`_store_link_relationships`), with JSON-encoded fields kept structured. -/

/-- One chunk record in the `notes` collection (`add_document`, lines 243-266). -/
structure ChunkRec where
  id : String
  doc_id : String
  chunk_index : Nat
  content : String
  doc_type : String
  source_path : String
  date : String
  filename : String
  embedding : List ℚ
  deriving Repr, DecidableEq

/-- One edge record in the `links` collection (`_store_link_relationships`). -/
structure LinkRec where
  id : String
  source_id : String
  target_id : String
  relationship : String
  link_type : String
  context : String
  deriving Repr, DecidableEq

/-- One edge record in the `references` collection (`_store_link_relationships`). -/
structure RefRec where
  id : String
  source_id : String
  title : String
  url : String
  context : String
  deriving Repr, DecidableEq

/-- One record in the `metadata` collection (modification-time tracking). -/
structure MetaRec where
  id : String
  modified_time : ℚ
  deriving Repr, DecidableEq

/-- The collections of one `VectorStoreService` instance (the `system`
collection is not touched by the operations under verification). -/
structure Store where
  notes : List ChunkRec
  links : List LinkRec
  references : List RefRec
  metadata : List MetaRec
  deriving Repr, DecidableEq

/-- The document-level metadata dictionary passed to
`add_document` / `update_document`; only the keys the code reads. -/
structure DocMeta where
  type : Option String := none
  source : Option String := none
  date : Option String := none
  filename : Option String := none
  modified_time : Option ℚ := none
  deriving Repr, DecidableEq

/-! ### Link extraction (`_extract_wiki_links`, `_extract_external_refs`)

Faithful scanners for the two regexes, with the same left-to-right,
non-overlapping semantics as `re.finditer`: on a failed match the scan
advances one character. -/

/-- Scanner for the wiki-link regex
`\[\[([^\]|]+)(?:\|([^\]]+))?\]\]`.  Returns `(target, alias)` pairs.
The fuel argument is an upper bound on the scan length. -/
def wikiScan : Nat → List Char → List (String × String)
  | 0, _ => []
  | _ + 1, [] => []
  | fuel + 1, c :: rest =>
    match c, rest with
    | '[', '[' :: rest2 =>
      let tgt := rest2.takeWhile (fun ch => ch ≠ ']' ∧ ch ≠ '|')
      let rem := rest2.dropWhile (fun ch => ch ≠ ']' ∧ ch ≠ '|')
      if tgt.isEmpty then wikiScan fuel ('[' :: rest2)
      else
        match rem with
        | ']' :: ']' :: rest3 => (tgt.asString, tgt.asString) :: wikiScan fuel rest3
        | '|' :: rem2 =>
          let als := rem2.takeWhile (fun ch => ch ≠ ']')
          let rem3 := rem2.dropWhile (fun ch => ch ≠ ']')
          if als.isEmpty then wikiScan fuel ('[' :: rest2)
          else
            match rem3 with
            | ']' :: ']' :: rest4 => (tgt.asString, als.asString) :: wikiScan fuel rest4
            | _ => wikiScan fuel ('[' :: rest2)
        | _ => wikiScan fuel ('[' :: rest2)
    | _, _ => wikiScan fuel rest

/-- `_extract_wiki_links`: `[[link]]` and `[[link|alias]]` occurrences. -/
def extractWikiLinks (text : String) : List (String × String) :=
  wikiScan (text.data.length + 1) text.data

/-- Scanner for the Markdown-link regex `\[([^\]]+)\]\(([^)]+)\)`.
Returns `(text, url)` pairs. -/
def refScan : Nat → List Char → List (String × String)
  | 0, _ => []
  | _ + 1, [] => []
  | fuel + 1, c :: rest =>
    match c with
    | '[' =>
      let txt := rest.takeWhile (fun ch => ch ≠ ']')
      let rem := rest.dropWhile (fun ch => ch ≠ ']')
      if txt.isEmpty then refScan fuel rest
      else
        match rem with
        | ']' :: '(' :: rem2 =>
          let url := rem2.takeWhile (fun ch => ch ≠ ')')
          let rem3 := rem2.dropWhile (fun ch => ch ≠ ')')
          if url.isEmpty then refScan fuel rest
          else
            match rem3 with
            | ')' :: rest4 => (txt.asString, url.asString) :: refScan fuel rest4
            | _ => refScan fuel rest
        | _ => refScan fuel rest
    | _ => refScan fuel rest

/-- `_extract_external_refs`: Markdown `[text](url)` occurrences. -/
def extractExternalRefs (text : String) : List (String × String) :=
  refScan (text.data.length + 1) text.data

/-! ### Record construction -/

/-- Chunk id `f"{doc_id}_chunk_{i}"`. -/
def chunkId (doc_id : String) (i : Nat) : String :=
  doc_id ++ "_chunk_" ++ natRepr i

/-- Link edge id `f"{doc_id}_to_{link['target']}"`. -/
def linkId (doc_id target : String) : String :=
  doc_id ++ "_to_" ++ target

/-- Reference edge id `f"{doc_id}_to_{hash(ref['url'])}"`; `hashUrl` models
Python's per-process-deterministic `hash`. -/
def refId (hashUrl : String → String) (doc_id url : String) : String :=
  doc_id ++ "_to_" ++ hashUrl url

theorem chunkId_inj_index {doc_id : String} {i j : Nat}
    (h : chunkId doc_id i = chunkId doc_id j) : i = j := by
  unfold chunkId at h
  rw [String.append_assoc, String.append_assoc] at h
  have h1 := string_append_left_cancel h
  have h2 := string_append_left_cancel h1
  exact natRepr_injective h2

theorem linkId_inj_target {doc_id : String} {t u : String}
    (h : linkId doc_id t = linkId doc_id u) : t = u := by
  unfold linkId at h
  rw [String.append_assoc, String.append_assoc] at h
  exact string_append_left_cancel (string_append_left_cancel h)

theorem refId_inj_hash {hashUrl : String → String} {doc_id u v : String}
    (h : refId hashUrl doc_id u = refId hashUrl doc_id v) : hashUrl u = hashUrl v := by
  unfold refId at h
  rw [String.append_assoc, String.append_assoc] at h
  exact string_append_left_cancel (string_append_left_cancel h)

/-- The chunk records `add_document` builds (loop at lines 243-266).
`embeddings.getD i []` pairs each chunk with its embedding; callers pass
lists of equal length. -/
def buildChunkRecs (doc_id : String) (chunks : List String)
    (embeddings : List (List ℚ)) (md : DocMeta) : List ChunkRec :=
  chunks.enum.map fun ic =>
    { id := chunkId doc_id ic.1
      doc_id := doc_id
      chunk_index := ic.1
      content := ic.2
      doc_type := md.type.getD "note"
      source_path := md.source.getD ""
      date := md.date.getD ""
      filename := md.filename.getD ""
      embedding := embeddings.getD ic.1 [] }

/-- The `links` records derived from the chunks of one document
(`_store_link_relationships`, wiki-link loop).  The Python code interleaves
`links` and `references` upserts chunk by chunk, but each loop only touches
its own collection, so per-collection insertion order is exactly this list. -/
def derivedLinkRecs (doc_id : String) (chunks : List String) : List LinkRec :=
  chunks.flatMap fun chunk =>
    (extractWikiLinks chunk).map fun l =>
      { id := linkId doc_id l.1
        source_id := doc_id
        target_id := l.1
        relationship := "references"
        link_type := "wiki"
        context := chunk.take 200 }

/-- The `references` records derived from the chunks of one document
(`_store_link_relationships`, external-reference loop). -/
def derivedRefRecs (hashUrl : String → String) (doc_id : String)
    (chunks : List String) : List RefRec :=
  chunks.flatMap fun chunk =>
    (extractExternalRefs chunk).map fun r =>
      { id := refId hashUrl doc_id r.2
        source_id := doc_id
        title := r.1
        url := r.2
        context := chunk.take 200 }

/-- `add_document(doc_id, chunks, embeddings, metadata)` (lines 220-299):
upserts one record per chunk into `notes`, derives and upserts wiki /
external edges into `links` / `references`, and upserts the
`metadata`-collection entry when `modified_time` is present.
`metadata or {}` maps both `None` and `{}` to the empty `DocMeta`. -/
def addDocument (hashUrl : String → String) (s : Store) (doc_id : String)
    (chunks : List String) (embeddings : List (List ℚ))
    (metadata : Option DocMeta) : Store :=
  let md := metadata.getD {}
  { notes := foldUpsert ChunkRec.id (buildChunkRecs doc_id chunks embeddings md) s.notes
    links := foldUpsert LinkRec.id (derivedLinkRecs doc_id chunks) s.links
    references := foldUpsert RefRec.id (derivedRefRecs hashUrl doc_id chunks) s.references
    metadata :=
      match md.modified_time with
      | some mt => upsertBy MetaRec.id { id := doc_id, modified_time := mt } s.metadata
      | none => s.metadata }

/-- The metadata `update_document` passes on to `add_document` (lines
543-558): the argument when given, else the preserved stored entry, in
either case with `modified_time` overwritten by `time.time()` (`now`). -/
def resolveUpdateMeta (s : Store) (doc_id : String) (metadata : Option DocMeta)
    (now : ℚ) : DocMeta :=
  let m0 : DocMeta :=
    match metadata with
    | some m => m
    | none =>
      match s.metadata.find? (fun r => r.id = doc_id) with
      | some r => { modified_time := some r.modified_time }
      | none => {}
  { m0 with modified_time := some now }

/-- `update_document(doc_id, new_chunks, new_embeddings, metadata)`
(lines 516-566): deletes `notes` records with matching `doc_id` and `links`
records with matching `source_id` (the `references` collection is NOT
purged), resolves the metadata (preserving the stored entry when the
argument is `None`), unconditionally stamps `modified_time = time.time()`
(the `now` argument), then calls `add_document`. -/
def updateDocument (hashUrl : String → String) (s : Store) (doc_id : String)
    (new_chunks : List String) (new_embeddings : List (List ℚ))
    (metadata : Option DocMeta) (now : ℚ) : Store :=
  let s1 : Store :=
    { s with
      notes := s.notes.filter fun r => r.doc_id ≠ doc_id
      links := s.links.filter fun e => e.source_id ≠ doc_id }
  addDocument hashUrl s1 doc_id new_chunks new_embeddings
    (some (resolveUpdateMeta s doc_id metadata now))

/-! ### Similarity search (`find_similar`, lines 301-406) -/

/-- One raw result row as returned by the ChromaDB `query` call
(per-row projection of the parallel `ids` / `documents` / `metadatas` /
`distances` arrays). -/
structure RawResult where
  chunk_id : String
  content : String
  doc_id : String
  distance : ℚ
  deriving Repr, DecidableEq

/-- One formatted result of `find_similar`. -/
structure SimilarDoc where
  chunk_id : String
  content : String
  doc_id : String
  similarity : ℚ
  deriving Repr, DecidableEq

/-- `find_similar` (lines 301-406).  The backend query outcome is a
parameter: `.error` models any exception raised inside the `try` block,
which the catch-all handler at lines 404-406 absorbs by returning `[]`.
For each row the cosine distance `d` becomes similarity `1 - d`; a row is
dropped only when `threshold and similarity < threshold` — with Python
truthiness, so a threshold of `0` (like `None`) disables the filter. -/
def findSimilar (queryOutcome : Except String (List RawResult))
    (threshold : Option ℚ) : List SimilarDoc :=
  match queryOutcome with
  | .error _ => []
  | .ok results =>
    results.filterMap fun r =>
      let similarity := 1 - r.distance
      match threshold with
      | some t =>
        if t ≠ 0 ∧ similarity < t then none
        else some { chunk_id := r.chunk_id, content := r.content,
                    doc_id := r.doc_id, similarity := similarity }
      | none =>
        some { chunk_id := r.chunk_id, content := r.content,
               doc_id := r.doc_id, similarity := similarity }

/-! ### Retry policy (`_retry_operation`, lines 199-218) -/

/-- Outcome of one invocation of the wrapped operation. -/
inductive OpResult (γ : Type) where
  | ok (value : γ)
  | operationalError (msg : String)
  | otherError (msg : String)
  deriving Repr, DecidableEq

/-- Trace of a `_retry_operation` run: final outcome, number of times the
operation was invoked, and the sleep durations (seconds) between retries. -/
structure RetryTrace (γ : Type) where
  outcome : Except String γ
  calls : Nat
  sleeps : List Nat
  deriving Repr

/-- `MAX_RETRIES` (line 16). -/
def MAX_RETRIES : Nat := 3

/-- `RETRY_DELAY` in seconds (line 17). -/
def RETRY_DELAY : Nat := 1

/-- The `for attempt in range(MAX_RETRIES)` loop of `_retry_operation`:
an `OperationalError` is recorded and retried (sleeping
`RETRY_DELAY * (attempt + 1)` when another attempt remains), any other
exception re-raises immediately, and after the loop the last
`OperationalError` is raised. -/
def retryLoop {γ : Type} (op : Nat → OpResult γ) :
    List Nat → Nat → List Nat → Option String → RetryTrace γ
  | [], calls, sleeps, lastError =>
    { outcome := .error (lastError.getD ""), calls := calls, sleeps := sleeps }
  | attempt :: rest, calls, sleeps, _ =>
    match op attempt with
    | .ok v => { outcome := .ok v, calls := calls + 1, sleeps := sleeps }
    | .operationalError e =>
      if rest.isEmpty then retryLoop op rest (calls + 1) sleeps (some e)
      else retryLoop op rest (calls + 1) (sleeps ++ [RETRY_DELAY * (attempt + 1)]) (some e)
    | .otherError e => { outcome := .error e, calls := calls + 1, sleeps := sleeps }

/-- `_retry_operation(operation)` (lines 199-218). -/
def retryOperation {γ : Type} (op : Nat → OpResult γ) : RetryTrace γ :=
  retryLoop op (List.range MAX_RETRIES) 0 [] none

end NotesKG

namespace NotesKG

/-! ## Embedding service (`services/vector_store/embedding_service.py`)

The underlying LangChain model is a parameter (`backendQuery` /
`backendDocs`), as is the `np.linalg.norm` function `norm` (square roots
are not rational; theorems constrain `norm` by `norm v * norm v = sumSq v`). -/

/-- Squared Euclidean norm of a vector. -/
def sumSq (v : List ℚ) : ℚ := (v.map fun x => x * x).sum

/-- `embed_text(text)` (lines 74-100): the backend query embedding is
divided by its norm only when `model_type == "openai"`; every other model
type returns the backend vector unchanged. -/
def embedText (norm : List ℚ → ℚ) (model_type : String)
    (backendQuery : String → List ℚ) (text : String) : List ℚ :=
  let embeddings := backendQuery text
  if model_type = "openai" then embeddings.map fun x => x / norm embeddings
  else embeddings

/-- Batch slices `chunks[i : i + batch_size]` for
`range(0, len(chunks), batch_size)` (fuelled; `batch_size > 0`). -/
def batchSlices (batch_size : Nat) : Nat → List String → List (List String)
  | 0, _ => []
  | _ + 1, [] => []
  | fuel + 1, l => l.take batch_size :: batchSlices batch_size fuel (l.drop batch_size)

/-- `embed_chunks(chunks)` (lines 102-142): Ollama is passed through
unbatched and unnormalized; other model types are processed in batches of
`batch_size`, and each batch is normalized only when
`model_type == "openai"`. -/
def embedChunks (norm : List ℚ → ℚ) (model_type : String) (batch_size : Nat)
    (backendDocs : List String → List (List ℚ)) (chunks : List String) :
    List (List ℚ) :=
  if model_type = "ollama" then backendDocs chunks
  else
    (batchSlices batch_size chunks.length chunks).foldl
      (fun all_embeddings batch =>
        let batch_embeddings := backendDocs batch
        let batch_embeddings :=
          if model_type = "openai" then
            batch_embeddings.map fun emb => emb.map fun x => x / norm emb
          else batch_embeddings
        all_embeddings ++ batch_embeddings) []

theorem sumSq_map_div (v : List ℚ) (c : ℚ) :
    sumSq (v.map fun x => x / c) = sumSq v / (c * c) := by
  induction v with
  | nil => simp [sumSq]
  | cons x xs ih =>
    simp only [List.map_cons, sumSq, List.sum_cons] at *
    rw [ih, div_mul_div_comm, div_add_div_same]

theorem sumSq_normalized {v : List ℚ} {c : ℚ} (hc : c * c = sumSq v) (h0 : c ≠ 0) :
    sumSq (v.map fun x => x / c) = 1 := by
  rw [sumSq_map_div, hc]
  exact div_self (by rw [← hc]; exact mul_ne_zero h0 h0)

theorem mem_foldl_append {γ δ : Type} (f : γ → List δ) :
    ∀ (l : List γ) (init : List δ) (x : δ),
      x ∈ l.foldl (fun acc b => acc ++ f b) init → x ∈ init ∨ ∃ b ∈ l, x ∈ f b := by
  intro l
  induction l with
  | nil => intro init x h; exact Or.inl h
  | cons b bs ih =>
    intro init x h
    rcases ih (init ++ f b) x h with h1 | h1
    · rcases List.mem_append.mp h1 with h2 | h2
      · exact Or.inl h2
      · exact Or.inr ⟨b, List.mem_cons_self _ _, h2⟩
    · rcases h1 with ⟨q, hq, hx⟩
      exact Or.inr ⟨q, List.mem_cons_of_mem _ hq, hx⟩

end NotesKG

namespace NotesKG

/-! ## Chunking service (`services/vector_store/chunking_service.py`)

The LLM-backed `_process_chunk_group` (including its internal
fallback-on-exception) is a parameter `processGroup`; the YAML parser of
`_extract_frontmatter` is a parameter `yamlParse` (`.error` models a
`yaml.YAMLError`). -/

/-- Parsed YAML frontmatter; only the `tags` key is read by the code. -/
structure Frontmatter where
  tags : List String := []
  deriving Repr, DecidableEq

/-- One chunk produced by `chunk_document`. -/
structure ChunkOut where
  content : String
  title : String
  deriving Repr, DecidableEq

/-- `_extract_frontmatter(content)` (lines 90-115): when the content starts
with `---` and a closing `---` exists from index 3 on, the YAML between is
parsed and the remainder (stripped) becomes the content; on a YAML error
the content is left unchanged. -/
def extractFrontmatter (yamlParse : String → Except Unit Frontmatter)
    (content : String) : Frontmatter × String :=
  if pyStartsWith "---" content then
    let tail3 := content.drop 3
    let parts := pySplit tail3 "---"
    if 2 ≤ parts.length then
      let idx := (parts.headD "").length
      let frontmatter_yaml := pyStrip (tail3.take idx)
      match yamlParse frontmatter_yaml with
      | .ok fm => (fm, pyStrip (content.drop (3 + idx + 3)))
      | .error _ => ({}, content)
    else ({}, content)
  else ({}, content)

/-- `_extract_title(content)` (lines 117-134): first `# ` or `## ` line. -/
def extractTitle (content : String) : String :=
  let rec go : List String → String
    | [] => ""
    | line :: rest =>
      if pyStartsWith "# " line then pyStrip (line.drop 2)
      else if pyStartsWith "## " line then pyStrip (line.drop 3)
      else go rest
  go (pySplit content "\n")

/-- `_split_daily_notes` timestamp test
`re.match(r'\[\d{4}-\d{2}-\d{2}\s+\d{2}:\d{2}:\d{2}\s+[AP]M\]', line)`. -/
def isTimestampLine (line : String) : Bool :=
  let cs := line.data
  let rec eatDigits : Nat → List Char → Option (List Char)
    | 0, l => some l
    | n + 1, c :: l => if c.isDigit then eatDigits n l else none
    | _ + 1, [] => none
  let rec eatWs1 : List Char → Option (List Char)
    | c :: l => if c.isWhitespace then some (l.dropWhile Char.isWhitespace) else none
    | [] => none
  let step := do
    let l ← if cs.head? = some '[' then some cs.tail else none
    let l ← eatDigits 4 l
    let l ← if l.head? = some '-' then some l.tail else none
    let l ← eatDigits 2 l
    let l ← if l.head? = some '-' then some l.tail else none
    let l ← eatDigits 2 l
    let l ← eatWs1 l
    let l ← eatDigits 2 l
    let l ← if l.head? = some ':' then some l.tail else none
    let l ← eatDigits 2 l
    let l ← if l.head? = some ':' then some l.tail else none
    let l ← eatDigits 2 l
    let l ← eatWs1 l
    let l ← if l.head? = some 'A' ∨ l.head? = some 'P' then some l.tail else none
    let l ← if l.head? = some 'M' then some l.tail else none
    if l.head? = some ']' then some l.tail else none
  step.isSome

/-- Shared line-accumulation shape of the three line-based splitters: a line
satisfying `isBoundary` flushes the running chunk and starts a new one; a
non-blank line extends the running chunk (when `needCurrent` is false, or a
chunk is already running); blank lines are skipped. -/
def splitLines (isBoundary : String → Bool) (needCurrent : Bool)
    (content : String) : List String :=
  let step := fun (st : List String × List String) (line : String) =>
    if isBoundary line then
      (st.1 ++ (if st.2.isEmpty then [] else [String.intercalate "\n" st.2]), [line])
    else if pyStrip line ≠ "" ∧ (¬ needCurrent ∨ ¬ st.2.isEmpty) then
      (st.1, st.2 ++ [line])
    else st
  let st := (pySplit content "\n").foldl step ([], [])
  st.1 ++ (if st.2.isEmpty then [] else [String.intercalate "\n" st.2])

/-- `_split_daily_notes(content)` (lines 163-187). -/
def splitDailyNotes (min_chunk_size : Nat) (content : String) : List String :=
  (splitLines isTimestampLine false content).filter fun c => min_chunk_size ≤ c.length

/-- Header test `re.compile(r'^#{1,6}\s')`. -/
def isHeaderLine (line : String) : Bool :=
  let hashes := line.data.takeWhile fun c => c = '#'
  let rest := line.data.dropWhile fun c => c = '#'
  decide (1 ≤ hashes.length) && decide (hashes.length ≤ 6) &&
    (match rest.head? with
     | some c => c.isWhitespace
     | none => false)

/-- `_split_by_headers(content)` (lines 189-214). -/
def splitByHeaders (min_chunk_size : Nat) (content : String) : List String :=
  (splitLines isHeaderLine false content).filter fun c => min_chunk_size ≤ c.length

/-- `_split_learning_notes(content)` (lines 216-240); non-boundary lines
only extend an already-started chunk. -/
def splitLearningNotes (min_chunk_size : Nat) (content : String) : List String :=
  (splitLines (fun line => pyStartsWith "- " line ∨ pyStartsWith "* " line) true content).filter
    fun c => min_chunk_size ≤ c.length

/-- One marker pass of `_split_by_semantic_markers`: split every current
chunk on the marker; parts are stripped and blank parts dropped, except for
the timestamp marker `"\n[2"` where parts after the first are re-prefixed
with `"[2"` (and tested for blankness before prefixing, without stripping). -/
def markerPass (marker : String) (chunks : List String) : List String :=
  chunks.flatMap fun chunk =>
    if marker = "\n[2" then
      match pySplit chunk "\n[2" with
      | [] => []
      | p0 :: rest =>
        (if pyStrip p0 ≠ "" then [p0] else []) ++
          rest.filterMap fun p => if pyStrip p ≠ "" then some ("[2" ++ p) else none
    else
      (pySplit chunk marker).filterMap fun c =>
        let t := pyStrip c
        if t ≠ "" then some t else none

/-- The marker list of `_split_by_semantic_markers` (lines 252-257). -/
def semanticMarkers : List String :=
  ["\n## ", "\n### ", "\n#### ", "\n- ", "\n* ", "\n\n", "\n[2"]

/-- `_split_by_semantic_markers(content)` (lines 242-272): iterated marker
splitting, then the minimum-size filter `len(c) >= self.min_chunk_size`. -/
def splitBySemanticMarkers (min_chunk_size : Nat) (content : String) : List String :=
  (semanticMarkers.foldl (fun chunks marker => markerPass marker chunks) [content]).filter
    fun c => min_chunk_size ≤ c.length

/-- The greedy accumulation loop of `chunk_document` (lines 56-86): raw
segments are buffered while the running size stays within
`max_chunk_size`; on overflow the buffer is flushed through
`_process_chunk_group` (joined with the two-character string `'\\n'`, as in
the source) and restarted. -/
def accumulateChunks (processGroup : String → List ChunkOut) (max_chunk_size : Nat) :
    List String → List String → Nat → List ChunkOut
  | [], current, _ =>
    if current.isEmpty then [] else processGroup (String.intercalate "\\n" current)
  | seg :: rest, current, current_size =>
    if current_size + seg.length ≤ max_chunk_size then
      accumulateChunks processGroup max_chunk_size rest (current ++ [seg])
        (current_size + seg.length)
    else
      (if current.isEmpty then [] else processGroup (String.intercalate "\\n" current)) ++
        accumulateChunks processGroup max_chunk_size rest [seg] seg.length

/-- Chunking-strategy choice of `chunk_document` (lines 46-53). -/
def initialChunksFor (min_chunk_size : Nat) (doc_type content : String) : List String :=
  if doc_type = "daily" then splitDailyNotes min_chunk_size content
  else if doc_type = "meeting" ∨ doc_type = "weekly" then
    splitByHeaders min_chunk_size content
  else if doc_type = "learning" then splitLearningNotes min_chunk_size content
  else splitBySemanticMarkers min_chunk_size content

/-- `chunk_document(content, doc_type)` (lines 27-88).  `processGroup`
receives the joined group content, the doc type, the extracted title and
tags, mirroring `_process_chunk_group`'s inputs. -/
def chunkDocument (yamlParse : String → Except Unit Frontmatter)
    (processGroup : String → String → String → List String → List ChunkOut)
    (min_chunk_size max_chunk_size : Nat) (content : String)
    (doc_type : String) : List ChunkOut :=
  accumulateChunks
    (fun c => processGroup c doc_type (extractTitle (extractFrontmatter yamlParse content).2)
      (extractFrontmatter yamlParse content).1.tags)
    max_chunk_size
    (initialChunksFor min_chunk_size doc_type (extractFrontmatter yamlParse content).2) [] 0

end NotesKG

namespace NotesKG

/-! ## Link service (`services/knowledge/link_service.py`)

The note files on disk are an association list `path ↦ content`;
`os.path.normpath` and the Vector Store lookups that feed this service are
parameters. -/

/-- Python `needle in hay` on lists of characters. -/
def listInfix (needle : List Char) : List Char → Bool
  | [] => needle.isEmpty
  | l@(_ :: rest) => needle.isPrefixOf l || listInfix needle rest

/-- Python `needle in hay` on strings. -/
def substrOf (needle hay : String) : Bool := listInfix needle.data hay.data

/-- The file system seen by the link service: `path ↦ content`. -/
def FileSys : Type := List (String × String)

/-- `open(path).read()`; `none` models `FileNotFoundError` / `IOError`. -/
def fsRead (fs : FileSys) (path : String) : Option String :=
  (fs.find? fun e => e.1 = path).map fun e => e.2

/-- `open(path, "w").write(content)`. -/
def fsWrite (fs : FileSys) (path content : String) : FileSys :=
  upsertBy Prod.fst (path, content) fs

/-- `_generate_alias(target)` (lines 272-275): basename without `.md`. -/
def generateAlias (target : String) : String :=
  pyReplace ((pySplit target "/").getLastD "") ".md" ""

/-- Occurrence test for the exact wiki-link regex
`\[\[{re.escape(target)}(?:\|[^\]]+)?\]\]` (first check of
`_has_wiki_link`). -/
def hasExactWikiAux (tgt : List Char) : Nat → List Char → Bool
  | 0, _ => false
  | fuel + 1, l =>
    (('[' :: '[' :: tgt).isPrefixOf l &&
      (let rem := l.drop (2 + tgt.length)
       (rem.take 2 = [']', ']'] : Bool) ||
         (match rem with
          | '|' :: rem2 =>
            let als := rem2.takeWhile fun c => c ≠ ']'
            !als.isEmpty && ((rem2.dropWhile fun c => c ≠ ']').take 2 = [']', ']'] : Bool)
          | _ => false))) ||
      (match l with
       | [] => false
       | _ :: rest => hasExactWikiAux tgt fuel rest)

/-- `_has_wiki_link(content, target)` (lines 277-309): exact wiki-link
regex, then a scan of known sections, then a bare-basename mention. -/
def hasWikiLink (content target : String) : Bool :=
  let exact := hasExactWikiAux target.data (content.data.length + 1) content.data
  let sections := ["## Related", "## Links", "## References", "## Backlinks"]
  let inSections := sections.any fun sec =>
    substrOf sec content &&
      (let after := String.intercalate sec ((pySplit content sec).tail)
       let section_content := (pySplit after "\n\n").headD ""
       substrOf target section_content)
  let base_name := pyReplace ((pySplit target "/").getLastD "") ".md" ""
  exact || inSections || substrOf ("[[" ++ base_name) content

/-- `_update_target_backlinks(target_id, source_id, source_path)`
(lines 327-364).  Note that the function resolves the **target** note's
content only as an existence guard, then reads, edits and writes the file
at `source_path`. -/
def updateTargetBacklinks (getNoteContent : String → Option String)
    (fs : FileSys) (target_id source_id source_path : String) : FileSys :=
  match getNoteContent target_id with
  | none => fs
  | some _ =>
    match fsRead fs source_path with
    | none => fs
    | some content =>
      if substrOf ("[[" ++ source_id ++ "]]") content then fs
      else
        let content := if pyEndsWith "\n" content then content else content ++ "\n"
        let content := content ++ "\n[[" ++ source_id ++ "]]\n"
        fsWrite fs source_path content

/-- One link directive passed to `update_obsidian_links`. -/
structure LinkDirective where
  target_id : String
  add_wiki_link : Bool
  deriving Repr, DecidableEq

/-- `update_obsidian_links(note_path, links, update_backlinks)`
(lines 179-270).  Reads the note, splits it at the first `\n---\n` into a
main body and a links section, collects the genuinely new wiki links
(updating target backlinks as it goes, when requested), then rewrites the
note file with an `## Auto generated references` section.  The follow-up
re-indexing (`_update_vector_store`) touches the vector store, not the
file system, and is outside this model. -/
def updateObsidianLinks (getNoteContent : String → Option String)
    (base_dir : String) (fs : FileSys) (note_path : String)
    (links : List LinkDirective) (update_backlinks : Bool) :
    Except String FileSys :=
  let note_id :=
    if substrOf (base_dir ++ "/") note_path then
      (pySplit note_path (base_dir ++ "/")).getLastD ""
    else note_path
  match fsRead fs note_path with
  | none => .error "FileNotFoundError"
  | some original_content =>
    let parts :=
      if substrOf "\n---\n" original_content then
        let ps := pySplit original_content "\n---\n"
        (ps.headD "", String.intercalate "\n---\n" ps.tail)
      else (original_content, "")
    let main_content := parts.1
    let links_section := parts.2
    let step := fun (st : FileSys × List String) (link : LinkDirective) =>
      if link.add_wiki_link then
        let target := link.target_id
        let als := generateAlias target
        let new_link := "[[" ++ target ++ "|" ++ als ++ "]]"
        if hasWikiLink (main_content ++ links_section) target then st
        else
          let fs1 :=
            if update_backlinks then
              updateTargetBacklinks getNoteContent st.1 target note_id note_path
            else st.1
          (fs1, st.2 ++ [new_link])
      else st
    let folded := links.foldl step (fs, [])
    let fs1 := folded.1
    let new_links := folded.2
    if new_links.isEmpty then .ok fs1
    else
      let updated_content :=
        if links_section ≠ "" then
          let u1 := pyRstrip main_content ++ "\n---\n" ++ pyRstrip links_section
          let u2 :=
            if substrOf "## Auto generated references" u1 then u1
            else u1 ++ "\n\n## Auto generated references"
          new_links.foldl (fun acc l => acc ++ "\n" ++ l) u2
        else
          new_links.foldl (fun acc l => acc ++ "\n" ++ l)
            (pyRstrip main_content ++ "\n\n---\n## Auto generated references")
      .ok (fsWrite fs1 note_path updated_content)

/-! ### Connection suggestions (`_suggest_connections`, lines 86-177) -/

/-- The per-target aggregation record built in the grouping loop
(lines 127-151). -/
structure NoteMatch where
  note_id : String
  max_similarity : ℚ
  chunk_similarities : List ℚ
  best_preview : String
  chunk_count : Nat
  deriving Repr, DecidableEq

/-- One suggestion (lines 163-168); the human-readable `reason` string is
presentation-only and omitted. -/
structure Suggestion where
  note_id : String
  similarity : ℚ
  preview : String
  deriving Repr, DecidableEq

/-- `result["content"][:200].replace("\n", " ").strip()`. -/
def previewOf (content : String) : String :=
  pyStrip (pyReplace (content.take 200) "\n" " ")

/-- The body of the grouping loop: one `find_similar` result row is merged
into the per-target aggregation list (insertion-ordered, like the Python
dict).  Rows whose `doc_id` is missing/empty, already linked, or the note
itself (raw or normalized comparison) are skipped. -/
def updateMatches (normpath : String → String) (note_id : String)
    (existing : List String) (acc : List NoteMatch) (r : RawResult)
    (similarity : ℚ) : List NoteMatch :=
  let result_id := r.doc_id
  if result_id ≠ "" ∧ result_id ∉ existing ∧ result_id ≠ note_id ∧
      normpath result_id ≠ normpath note_id then
    if acc.any fun m => m.note_id = result_id then
      acc.map fun m =>
        if m.note_id = result_id then
          let m1 := { m with
            chunk_similarities := m.chunk_similarities ++ [similarity]
            chunk_count := m.chunk_count + 1 }
          if m.max_similarity < similarity then
            { m1 with max_similarity := similarity, best_preview := previewOf r.content }
          else m1
        else m
    else
      acc ++ [{ note_id := result_id
                max_similarity := similarity
                chunk_similarities := [similarity]
                best_preview := previewOf r.content
                chunk_count := 1 }]
  else acc

/-- `chunk_bonus` (line 160). -/
def chunkBonus (m : NoteMatch) : ℚ :=
  m.chunk_similarities.sum / (m.chunk_similarities.length : ℚ) *
    min 1 ((m.chunk_count : ℚ) / 3)

/-- `aggregate_score` (line 161): `max_similarity + chunk_bonus * 0.2`. -/
def aggregateScore (m : NoteMatch) : ℚ :=
  m.max_similarity + chunkBonus m * (2 / 10)

/-- Python `round(q, 3)` on the idealized rational value: round half to
even at the third decimal. -/
def roundHalfEven (q : ℚ) : ℤ :=
  if q - (⌊q⌋ : ℚ) < 1 / 2 then ⌊q⌋
  else if 1 / 2 < q - (⌊q⌋ : ℚ) then ⌊q⌋ + 1
  else if ⌊q⌋ % 2 = 0 then ⌊q⌋ else ⌊q⌋ + 1

/-- `round(x, 3)`. -/
def roundTo3 (q : ℚ) : ℚ := (roundHalfEven (q * 1000) : ℚ) / 1000

/-- Stable insertion (descending by `similarity`) for
`suggestions.sort(key=lambda x: x["similarity"], reverse=True)`. -/
def insertDesc (x : Suggestion) : List Suggestion → List Suggestion
  | [] => [x]
  | y :: ys => if y.similarity < x.similarity then x :: y :: ys else y :: insertDesc x ys

/-- Sort suggestions by score, descending. -/
def sortDesc (l : List Suggestion) : List Suggestion :=
  l.foldl (fun acc x => insertDesc x acc) []

/-- `_suggest_connections(note_id, existing_links, backlinks)`
(lines 86-177).  `noteContent` is the `get_note_content` outcome (`none`
degrades to no suggestions); `similar` is the `find_similar` result list
for the note's embedding (threshold 0.5, limit 10), one row per matching
chunk, already carrying similarity `1 - distance`. -/
def suggestConnections (normpath : String → String) (note_id : String)
    (noteContent : Option String) (similar : List (RawResult × ℚ))
    (direct_links : List String) (backlinks : List String) : List Suggestion :=
  match noteContent with
  | none => []
  | some _ =>
    let existing := direct_links ++ backlinks
    let note_matches :=
      similar.foldl (fun acc rs => updateMatches normpath note_id existing acc rs.1 rs.2) []
    let suggestions := note_matches.map fun m =>
      { note_id := m.note_id
        similarity := roundTo3 (aggregateScore m)
        preview := m.best_preview }
    sortDesc suggestions

end NotesKG

namespace NotesKG

/-! ## Shared concrete fixtures -/

/-- A store with all collections empty. -/
def emptyStore : Store := ⟨[], [], [], []⟩

/-! ## Claim theorems -/

/-- C10: whenever `update_document` succeeds, the `modified_time` stored for
`doc_id` in the metadata collection equals the wall-clock time of the update
call (`time.time()`, the `now` argument); any caller-supplied or preserved
`modified_time` is unconditionally overwritten before storage. -/
theorem C10_update_stamps_wall_clock (hashUrl : String → String) (s : Store)
    (doc_id : String) (new_chunks : List String) (new_embeddings : List (List ℚ))
    (metadata : Option DocMeta) (now : ℚ) :
    (updateDocument hashUrl s doc_id new_chunks new_embeddings metadata now).metadata.find?
        (fun r => r.id = doc_id) =
      some { id := doc_id, modified_time := now } := by
  show (upsertBy MetaRec.id { id := doc_id, modified_time := now } s.metadata).find?
      (fun r => r.id = doc_id) = some { id := doc_id, modified_time := now }
  exact @find?_upsertBy_key MetaRec MetaRec.id
    { id := doc_id, modified_time := now } s.metadata

/-- C2 counterexample: with the supplied threshold `0` (inside the documented
range `[-1, 1]`), `find_similar` returns a result whose computed similarity
`1 - d = -1/2` is below the threshold, because `if threshold and ...` treats
a zero threshold as falsy and disables the filter. -/
theorem C2_counterexample :
    (findSimilar (.ok [{ chunk_id := "c1", content := "x", doc_id := "d",
                         distance := 3 / 2 }]) (some 0)).map SimilarDoc.similarity
        = [-(1 / 2)] ∧
      (-(1 / 2) : ℚ) < 0 ∧ (-1 : ℚ) ≤ 0 ∧ (0 : ℚ) ≤ 1 := by
  refine ⟨?_, by norm_num, by norm_num, by norm_num⟩
  simp only [findSimilar, List.filterMap, List.map]
  norm_num

/-- C2 (amended): for every supplied NONZERO threshold `t`, every result
returned by `find_similar` has computed similarity `1 - d ≥ t`; a threshold
of exactly `0` (like `None`) disables filtering because the guard tests the
threshold's Python truthiness. -/
theorem C2_nonzero_threshold_filter (queryOutcome : Except String (List RawResult))
    (t : ℚ) (ht : t ≠ 0) :
    ∀ d ∈ findSimilar queryOutcome (some t), t ≤ d.similarity := by
  intro d hd
  match queryOutcome with
  | .error _ => simp [findSimilar] at hd
  | .ok results =>
    simp only [findSimilar] at hd
    rcases List.mem_filterMap.mp hd with ⟨r, _, hr⟩
    by_cases hlt : 1 - r.distance < t
    · rw [if_pos ⟨ht, hlt⟩] at hr
      cases hr
    · rw [if_neg (fun hc => hlt hc.2)] at hr
      cases hr
      simpa using le_of_not_lt hlt

/-- Witness for C2's amended theorem at threshold `1/2` and distance `1/4`. -/
theorem C2_nonzero_threshold_filter_witness :
    ((1 : ℚ) / 2 ≠ 0) ∧
      (1 : ℚ) / 2 ≤ (SimilarDoc.mk "c1" "x" "d" (3 / 4)).similarity :=
  ⟨by norm_num,
    C2_nonzero_threshold_filter
      (.ok [{ chunk_id := "c1", content := "x", doc_id := "d", distance := 1 / 4 }])
      (1 / 2) (by norm_num) _
      (by simp only [findSimilar, List.filterMap]
          norm_num)⟩

/-- C9 counterexample: a storage error raised inside `find_similar` is NOT
propagated: the catch-all handler at lines 404-406 absorbs it and returns
the empty list. -/
theorem C9_counterexample :
    findSimilar (.error "sqlite3.OperationalError: database is locked")
      (some (1 / 2)) = [] := rfl

/-- C9 (amended): operations executed through `_retry_operation` retry a
transient `OperationalError` up to `MAX_RETRIES = 3` attempts with linearly
increasing backoff (sleeps of 1 s then 2 s) and re-raise the last error
after exhausting the attempts, and any non-`OperationalError` exception
propagates immediately on the first attempt; `find_similar`, however, wraps
its whole body in a catch-all handler and returns `[]` instead of
propagating storage errors. -/
theorem C9_retry_policy (γ : Type) :
    (∀ (op : Nat → OpResult γ) (e : Nat → String),
        (∀ a, a < MAX_RETRIES → op a = .operationalError (e a)) →
        retryOperation op =
          { outcome := .error (e 2), calls := 3,
            sleeps := [RETRY_DELAY * 1, RETRY_DELAY * 2] }) ∧
      (∀ (op : Nat → OpResult γ) (m : String),
        op 0 = .otherError m →
        retryOperation op = { outcome := .error m, calls := 1, sleeps := [] }) ∧
      (∀ (msg : String) (t : Option ℚ), findSimilar (.error msg) t = []) := by
  refine ⟨?_, ?_, ?_⟩
  · intro op e h
    have h0 := h 0 (by decide)
    have h1 := h 1 (by decide)
    have h2 := h 2 (by decide)
    show retryLoop op (List.range MAX_RETRIES) 0 [] none = _
    rw [show List.range MAX_RETRIES = [0, 1, 2] from by decide]
    rw [retryLoop, h0]
    rw [show ([1, 2] : List Nat).isEmpty = false from rfl]
    simp only [Bool.false_eq_true, if_false]
    rw [retryLoop, h1]
    rw [show ([2] : List Nat).isEmpty = false from rfl]
    simp only [Bool.false_eq_true, if_false]
    rw [retryLoop, h2]
    rw [show ([] : List Nat).isEmpty = true from rfl]
    simp only [if_true]
    rfl
  · intro op m h
    show retryLoop op (List.range MAX_RETRIES) 0 [] none = _
    rw [show List.range MAX_RETRIES = [0, 1, 2] from by decide]
    rw [retryLoop, h]
  · intro msg t
    rfl

/-- Witness for C9's amended theorem: a permanently locked store exhausts
the three attempts with backoff 1 s, 2 s; a non-transient error raises on
the first call; an erroring `find_similar` backend yields `[]`. -/
theorem C9_retry_policy_witness :
    retryOperation (fun _ => (OpResult.operationalError "locked" : OpResult Nat)) =
        { outcome := .error "locked", calls := 3, sleeps := [1, 2] } ∧
      retryOperation (fun _ => (OpResult.otherError "boom" : OpResult Nat)) =
        { outcome := .error "boom", calls := 1, sleeps := [] } ∧
      findSimilar (.error "db gone") none = [] :=
  ⟨(C9_retry_policy Nat).1 _ (fun _ => "locked") (fun _ _ => rfl),
    (C9_retry_policy Nat).2.1 _ "boom" rfl,
    (C9_retry_policy Nat).2.2 "db gone" none⟩

/-- C5 counterexample: for the `huggingface` model type (and any
non-`openai` model type), `embed_text` and `embed_chunks` return the
backend's vectors unchanged — here `[2, 0]`, whose squared L2 norm is 4,
not 1 — so the returned vectors are not L2-normalized by this code. -/
theorem C5_counterexample :
    embedText (fun _ => 1) "huggingface" (fun _ => [2, 0]) "text" = [2, 0] ∧
      embedChunks (fun _ => 1) "huggingface" 100 (fun _ => [[2, 0]]) ["text"] = [[2, 0]] ∧
      sumSq [2, 0] = 4 ∧ ((4 : ℚ) ≠ 1) := by
  refine ⟨rfl, rfl, by simp [sumSq]; norm_num, by norm_num⟩

/-- C5 (amended): only on the `openai` model type does the embedding
service itself L2-normalize, and there it does so uniformly on both the
single-text path (`embed_text`) and the batch path (`embed_chunks`): given
a norm function agreeing with the Euclidean norm on the backend's vectors,
every returned vector has squared norm 1.  Every other model type returns
the backend's vectors unchanged. -/
theorem C5_openai_normalization (norm : List ℚ → ℚ) :
    (∀ (backendQuery : String → List ℚ) (text : String),
        norm (backendQuery text) * norm (backendQuery text) = sumSq (backendQuery text) →
        norm (backendQuery text) ≠ 0 →
        sumSq (embedText norm "openai" backendQuery text) = 1) ∧
      (∀ (batch_size : Nat) (backendDocs : List String → List (List ℚ))
          (chunks : List String),
        (∀ b, ∀ v ∈ backendDocs b, norm v * norm v = sumSq v ∧ norm v ≠ 0) →
        ∀ v ∈ embedChunks norm "openai" batch_size backendDocs chunks, sumSq v = 1) ∧
      (∀ (model_type : String) (backendQuery : String → List ℚ) (text : String),
        model_type ≠ "openai" →
        embedText norm model_type backendQuery text = backendQuery text) := by
  refine ⟨?_, ?_, ?_⟩
  · intro bq text hnorm h0
    simp only [embedText, if_pos rfl]
    exact sumSq_normalized hnorm h0
  · intro bs bd chunks hb v hv
    have hv2 : v ∈ (batchSlices bs chunks.length chunks).foldl
        (fun all batch => all ++ (bd batch).map fun emb => emb.map fun x => x / norm emb)
        [] := hv
    rcases mem_foldl_append _ _ _ _ hv2 with h | ⟨b, _, hvb⟩
    · simp at h
    · rcases List.mem_map.mp hvb with ⟨u, hu, hvu⟩
      rcases hb b u hu with ⟨hn, h0⟩
      rw [← hvu]
      exact sumSq_normalized hn h0
  · intro mt bq text hmt
    simp only [embedText, if_neg hmt]

/-- Witness for C5's amended theorem with backend vector `[3, 4]` and norm
`5`: both paths return a unit vector. -/
theorem C5_openai_normalization_witness :
    sumSq (embedText (fun _ => 5) "openai" (fun _ => [3, 4]) "t") = 1 ∧
      sumSq [(3 : ℚ) / 5, 4 / 5] = 1 :=
  ⟨(C5_openai_normalization (fun _ => 5)).1 (fun _ => [3, 4]) "t"
      (by simp [sumSq]; norm_num) (by norm_num),
    (C5_openai_normalization (fun _ => 5)).2.1 100 (fun _ => [[3, 4]]) ["t"]
      (by intro b v hv
          simp only [List.mem_singleton] at hv
          subst hv
          refine ⟨by simp [sumSq]; norm_num, by norm_num⟩)
      [(3 : ℚ) / 5, 4 / 5]
      (by simp [embedChunks, batchSlices])⟩

/-- C3: the claim says a non-empty input shorter than `min_chunk_size`
chunks to exactly one chunk containing the whole input; the code instead
drops such content entirely — the initial marker split filters every
segment with `len(c) >= min_chunk_size`, so `chunk_document` returns the
empty list (contradicting the repository's own `test_small_document`).
Evaluated here at the spec's example `"Quick note."` (`min_chunk_size=50`)
and at the test suite's input, for every YAML parser and every LLM
processor. -/
theorem C3_short_input_yields_no_chunks :
    (∀ (yamlParse : String → Except Unit Frontmatter)
        (processGroup : String → String → String → List String → List ChunkOut),
        chunkDocument yamlParse processGroup 50 500 "Quick note." "note" = []) ∧
      (∀ (yamlParse : String → Except Unit Frontmatter)
          (processGroup : String → String → String → List String → List ChunkOut),
        chunkDocument yamlParse processGroup 50 500 "This is a small document." "note" = []) := by
  constructor
  · intro yp pg
    unfold chunkDocument
    rw [show ∀ yp2, extractFrontmatter yp2 "Quick note." = ({}, "Quick note.") from
      fun yp2 => by
        unfold extractFrontmatter
        rw [show (pyStartsWith "---" "Quick note.") = false from by decide]
        simp]
    rw [show initialChunksFor 50 "note" "Quick note." = [] from by decide]
    rfl
  · intro yp pg
    unfold chunkDocument
    rw [show ∀ yp2, extractFrontmatter yp2 "This is a small document." =
        ({}, "This is a small document.") from
      fun yp2 => by
        unfold extractFrontmatter
        rw [show (pyStartsWith "---" "This is a small document.") = false from by decide]
        simp]
    rw [show initialChunksFor 50 "note" "This is a small document." = [] from by decide]
    rfl

end NotesKG

namespace NotesKG

/-! ## C7: suggestion exclusion invariant -/

/-- The exclusion property of one aggregation entry. -/
def ExcludedFrom (normpath : String → String) (note_id : String)
    (existing : List String) (rid : String) : Prop :=
  rid ∉ existing ∧ rid ≠ note_id ∧ normpath rid ≠ normpath note_id

theorem updateMatches_preserves_exclusion {normpath : String → String}
    {note_id : String} {existing : List String} {acc : List NoteMatch}
    {r : RawResult} {sim : ℚ}
    (h : ∀ m ∈ acc, ExcludedFrom normpath note_id existing m.note_id) :
    ∀ m ∈ updateMatches normpath note_id existing acc r sim,
      ExcludedFrom normpath note_id existing m.note_id := by
  intro m hm
  unfold updateMatches at hm
  by_cases hc : r.doc_id ≠ "" ∧ r.doc_id ∉ existing ∧ r.doc_id ≠ note_id ∧
      normpath r.doc_id ≠ normpath note_id
  · rw [if_pos hc] at hm
    by_cases hany : acc.any fun m0 => m0.note_id = r.doc_id
    · rw [if_pos hany] at hm
      rcases List.mem_map.mp hm with ⟨m0, hm0, hfm⟩
      have hid : m.note_id = m0.note_id := by
        rw [← hfm]
        by_cases he : m0.note_id = r.doc_id
        · rw [if_pos he]
          by_cases hmax : m0.max_similarity < sim
          · rw [if_pos hmax]
          · rw [if_neg hmax]
        · rw [if_neg he]
      rw [hid]
      exact h m0 hm0
    · rw [if_neg hany] at hm
      rcases List.mem_append.mp hm with hm1 | hm1
      · exact h m hm1
      · have : m.note_id = r.doc_id := by
          rcases List.mem_singleton.mp hm1 with rfl
          rfl
        rw [this]
        exact ⟨hc.2.1, hc.2.2.1, hc.2.2.2⟩
  · rw [if_neg hc] at hm
    exact h m hm

theorem foldl_updateMatches_exclusion (normpath : String → String)
    (note_id : String) (existing : List String) :
    ∀ (sims : List (RawResult × ℚ)) (acc : List NoteMatch),
      (∀ m ∈ acc, ExcludedFrom normpath note_id existing m.note_id) →
      ∀ m ∈ sims.foldl (fun a rs => updateMatches normpath note_id existing a rs.1 rs.2) acc,
        ExcludedFrom normpath note_id existing m.note_id := by
  intro sims
  induction sims with
  | nil => intro acc h; exact h
  | cons rs rest ih =>
    intro acc h
    exact ih _ (updateMatches_preserves_exclusion h)

theorem mem_insertDesc {x y : Suggestion} :
    ∀ {l : List Suggestion}, y ∈ insertDesc x l → y = x ∨ y ∈ l := by
  intro l
  induction l with
  | nil => intro h; simpa [insertDesc] using h
  | cons z zs ih =>
    intro h
    by_cases hz : z.similarity < x.similarity
    · simp only [insertDesc, if_pos hz, List.mem_cons] at h
      simp only [List.mem_cons]
      tauto
    · simp only [insertDesc, if_neg hz, List.mem_cons] at h
      rcases h with h | h
      · exact Or.inr (by simp [h])
      · rcases ih h with h1 | h1
        · exact Or.inl h1
        · exact Or.inr (List.mem_cons_of_mem _ h1)

theorem mem_sortDesc_aux {y : Suggestion} :
    ∀ {l acc : List Suggestion},
      y ∈ l.foldl (fun a x => insertDesc x a) acc → y ∈ acc ∨ y ∈ l := by
  intro l
  induction l with
  | nil => intro acc h; exact Or.inl h
  | cons z zs ih =>
    intro acc h
    rcases ih h with h1 | h1
    · rcases mem_insertDesc h1 with h2 | h2
      · exact Or.inr (by simp [h2])
      · exact Or.inl h2
    · exact Or.inr (List.mem_cons_of_mem _ h1)

theorem mem_sortDesc {y : Suggestion} {l : List Suggestion} (h : y ∈ sortDesc l) : y ∈ l := by
  rcases mem_sortDesc_aux h with h1 | h1
  · simp at h1
  · exact h1

/-- C7: no entry of `suggested_links` names the note itself (raw or
path-normalized comparison) or a target already present in its direct links
or backlinks. -/
theorem C7_suggestions_exclude_self_and_existing (normpath : String → String)
    (note_id : String) (noteContent : Option String)
    (similar : List (RawResult × ℚ)) (direct_links backlinks : List String) :
    ∀ sug ∈ suggestConnections normpath note_id noteContent similar direct_links backlinks,
      sug.note_id ≠ note_id ∧ normpath sug.note_id ≠ normpath note_id ∧
        sug.note_id ∉ direct_links ∧ sug.note_id ∉ backlinks := by
  intro sug hsug
  match noteContent with
  | none => simp [suggestConnections] at hsug
  | some _ =>
    simp only [suggestConnections] at hsug
    have hmem := mem_sortDesc hsug
    rcases List.mem_map.mp hmem with ⟨m, hm, hsm⟩
    have hex := foldl_updateMatches_exclusion normpath note_id
      (direct_links ++ backlinks) similar []
      (by intro m0 hm0; simp at hm0) m hm
    have hid : sug.note_id = m.note_id := by rw [← hsm]
    rw [hid]
    rcases hex with ⟨hnotex, hne, hnp⟩
    refine ⟨hne, hnp, ?_, ?_⟩
    · intro hd; exact hnotex (List.mem_append.mpr (Or.inl hd))
    · intro hb; exact hnotex (List.mem_append.mpr (Or.inr hb))

/-- Witness for C7 at a one-row similarity result. -/
theorem C7_suggestions_exclude_witness :
    (Suggestion.mk "d" 0 "zz").note_id ≠ "me" ∧
      (id (Suggestion.mk "d" 0 "zz").note_id) ≠ id "me" ∧
      (Suggestion.mk "d" 0 "zz").note_id ∉ (["x"] : List String) ∧
      (Suggestion.mk "d" 0 "zz").note_id ∉ (["y"] : List String) :=
  C7_suggestions_exclude_self_and_existing id "me" (some "content")
    [({ chunk_id := "c1", content := "zz", doc_id := "d", distance := 1 }, 0)]
    ["x"] ["y"] (Suggestion.mk "d" 0 "zz")
    (by
      have h1 : aggregateScore (NoteMatch.mk "d" 0 [0] "zz" 1) = 0 := by
        unfold aggregateScore chunkBonus
        norm_num
      have h2 : roundTo3 (0 : ℚ) = 0 := by
        unfold roundTo3 roundHalfEven
        norm_num
      show Suggestion.mk "d" 0 "zz" ∈ sortDesc ([NoteMatch.mk "d" 0 [0] "zz" 1].map
        fun m => ⟨m.note_id, roundTo3 (aggregateScore m), m.best_preview⟩)
      simp only [List.map]
      rw [h1, h2]
      simp [sortDesc, insertDesc])

end NotesKG

namespace NotesKG

/-! ## C8: ranking score and chunk-count boosting -/

theorem roundHalfEven_bounds (q : ℚ) :
    ⌊q⌋ ≤ roundHalfEven q ∧ roundHalfEven q ≤ ⌊q⌋ + 1 := by
  unfold roundHalfEven
  split_ifs <;> omega

theorem roundHalfEven_mono {x y : ℚ} (h : x ≤ y) :
    roundHalfEven x ≤ roundHalfEven y := by
  have hf : ⌊x⌋ ≤ ⌊y⌋ := Int.floor_le_floor h
  by_cases heq : ⌊x⌋ = ⌊y⌋
  · have hr : x - (⌊y⌋ : ℚ) ≤ y - (⌊y⌋ : ℚ) := by linarith
    unfold roundHalfEven
    rw [heq]
    split_ifs <;> first | omega | linarith
  · have hb1 := (roundHalfEven_bounds x).2
    have hb2 := (roundHalfEven_bounds y).1
    omega

theorem roundTo3_mono {x y : ℚ} (h : x ≤ y) : roundTo3 x ≤ roundTo3 y := by
  unfold roundTo3
  have h1 : x * 1000 ≤ y * 1000 := by linarith
  have h2 : (roundHalfEven (x * 1000) : ℚ) ≤ (roundHalfEven (y * 1000) : ℚ) :=
    Int.cast_le.mpr (roundHalfEven_mono h1)
  exact div_le_div_of_nonneg_right h2 (by norm_num)

/-- C8: the ranking score equals
`max_similarity + 0.2 * (mean(chunk_similarities) * min(1, chunk_count/3))`,
and for two candidate targets with equal `max_similarity` whose per-chunk
similarities lie between the suggestion threshold `0.5` and `1` (the
documented similarity range), the target with more matching chunks (up to 3)
scores at least as high, both before and after the 3-decimal rounding used
as the sort key. -/
theorem C8_score_formula_and_boost :
    (∀ m : NoteMatch,
        aggregateScore m =
          m.max_similarity +
            (2 / 10) * (m.chunk_similarities.sum / (m.chunk_similarities.length : ℚ) *
              min 1 ((m.chunk_count : ℚ) / 3))) ∧
      (∀ A B : NoteMatch,
        A.chunk_count = A.chunk_similarities.length →
        B.chunk_count = B.chunk_similarities.length →
        B.chunk_count < A.chunk_count →
        A.chunk_count ≤ 3 →
        0 < B.chunk_count →
        A.max_similarity = B.max_similarity →
        A.max_similarity ∈ A.chunk_similarities →
        (∀ x ∈ A.chunk_similarities, 1 / 2 ≤ x) →
        (∀ x ∈ B.chunk_similarities, x ≤ B.max_similarity) →
        B.max_similarity ≤ 1 →
        aggregateScore B ≤ aggregateScore A ∧
          roundTo3 (aggregateScore B) ≤ roundTo3 (aggregateScore A)) := by
  constructor
  · intro m
    unfold aggregateScore chunkBonus
    ring
  · intro A B hAlen hBlen hba ha3 hbpos hM hmem hAt hBle hM1
    set la := A.chunk_similarities.length with hla
    set lb := B.chunk_similarities.length with hlb
    set M := B.max_similarity with hMdef
    have hlaN : 2 ≤ A.chunk_count := by omega
    have hlbN : 1 ≤ B.chunk_count := hbpos
    have hla0 : ((la : ℚ)) ≠ 0 := by
      have : 2 ≤ la := by omega
      positivity
    have hlb0 : ((lb : ℚ)) ≠ 0 := by
      have : 1 ≤ lb := by omega
      positivity
    -- min(1, count/3) = count/3 on both sides
    have hminA : min 1 ((A.chunk_count : ℚ) / 3) = (A.chunk_count : ℚ) / 3 := by
      apply min_eq_right
      have : (A.chunk_count : ℚ) ≤ 3 := by exact_mod_cast ha3
      linarith
    have hminB : min 1 ((B.chunk_count : ℚ) / 3) = (B.chunk_count : ℚ) / 3 := by
      apply min_eq_right
      have : (B.chunk_count : ℚ) ≤ 3 := by exact_mod_cast (by omega : B.chunk_count ≤ 3)
      linarith
    -- chunkBonus collapses to sum/3
    have hbonusA : chunkBonus A = A.chunk_similarities.sum / 3 := by
      unfold chunkBonus
      rw [hminA, hAlen]
      rw [div_mul_div_comm, mul_comm ((la : ℚ)) 3, mul_div_mul_right _ _ hla0]
    have hbonusB : chunkBonus B = B.chunk_similarities.sum / 3 := by
      unfold chunkBonus
      rw [hminB, hBlen]
      rw [div_mul_div_comm, mul_comm ((lb : ℚ)) 3, mul_div_mul_right _ _ hlb0]
    -- bound the sums
    have hsumB : B.chunk_similarities.sum ≤ (lb : ℚ) * M := by
      have := List.sum_le_card_nsmul B.chunk_similarities M hBle
      rwa [nsmul_eq_mul] at this
    have hsumA : M + ((la : ℚ) - 1) * (1 / 2) ≤ A.chunk_similarities.sum := by
      have hperm := List.perm_cons_erase hmem
      have hsum := hperm.sum_eq
      have herase : ∀ x ∈ A.chunk_similarities.erase A.max_similarity, 1 / 2 ≤ x :=
        fun x hx => hAt x (List.mem_of_mem_erase hx)
      have hlow := List.card_nsmul_le_sum (A.chunk_similarities.erase A.max_similarity)
        (1 / 2 : ℚ) herase
      rw [nsmul_eq_mul] at hlow
      have hlen : (A.chunk_similarities.erase A.max_similarity).length = la - 1 := by
        rw [List.length_erase_of_mem hmem]
      have hcast : (((la - 1 : Nat)) : ℚ) = (la : ℚ) - 1 := by
        have h1 : 1 ≤ la := by omega
        exact Nat.cast_sub h1
      rw [hlen, hcast] at hlow
      have hsplit : A.chunk_similarities.sum =
          A.max_similarity + (A.chunk_similarities.erase A.max_similarity).sum := by
        rw [hsum]; rfl
      linarith [hsplit, hlow, hM]
    -- the numeric core: sumB ≤ sumA
    have hcountN : 2 * lb ≤ la + 1 := by omega
    have hcountq : 2 * (lb : ℚ) ≤ (la : ℚ) + 1 := by exact_mod_cast hcountN
    have hlbq : (1 : ℚ) ≤ (lb : ℚ) := by exact_mod_cast (by omega : 1 ≤ lb)
    have hprod : ((lb : ℚ) - 1) * M ≤ ((lb : ℚ) - 1) * 1 :=
      mul_le_mul_of_nonneg_left hM1 (by linarith)
    have hsums : B.chunk_similarities.sum ≤ A.chunk_similarities.sum := by
      nlinarith [hsumB, hsumA, hprod, hcountq, hlbq]
    have hmain : aggregateScore B ≤ aggregateScore A := by
      unfold aggregateScore
      rw [hbonusA, hbonusB, hM]
      linarith
    exact ⟨hmain, roundTo3_mono hmain⟩

/-- Witness for C8: equal `max_similarity = 0.9`; target A matched by two
chunks (`0.9`, `0.5`), target B by one (`0.9`); A scores at least B. -/
theorem C8_score_formula_and_boost_witness :
    aggregateScore (NoteMatch.mk "b" (9 / 10) [9 / 10] "q" 1) ≤
      aggregateScore (NoteMatch.mk "a" (9 / 10) [9 / 10, 1 / 2] "p" 2) :=
  (C8_score_formula_and_boost.2
    (NoteMatch.mk "a" (9 / 10) [9 / 10, 1 / 2] "p" 2)
    (NoteMatch.mk "b" (9 / 10) [9 / 10] "q" 1)
    rfl rfl (by norm_num) (by norm_num) (by norm_num) rfl
    (by simp)
    (by intro x hx
        rcases List.mem_cons.mp hx with h | h
        · rw [h]; norm_num
        · simp only [List.mem_singleton] at h
          rw [h])
    (by intro x hx
        simp only [List.mem_singleton] at hx
        rw [hx])
    (by norm_num)).1

end NotesKG

namespace NotesKG

/-! ## C1 / C6: purge-then-reinsert shape of `update_document` -/

theorem keysOf_buildChunkRecs (doc_id : String) (chunks : List String)
    (embeddings : List (List ℚ)) (md : DocMeta) :
    keysOf ChunkRec.id (buildChunkRecs doc_id chunks embeddings md) =
      (List.range chunks.length).map (chunkId doc_id) := by
  unfold keysOf buildChunkRecs
  rw [List.map_map, ← List.enum_map_fst chunks, List.map_map]
  rfl

theorem nodup_keys_buildChunkRecs (doc_id : String) (chunks : List String)
    (embeddings : List (List ℚ)) (md : DocMeta) :
    (keysOf ChunkRec.id (buildChunkRecs doc_id chunks embeddings md)).Nodup := by
  rw [keysOf_buildChunkRecs]
  exact (List.nodup_range chunks.length).map fun i j h => chunkId_inj_index h

theorem mem_buildChunkRecs {doc_id : String} {chunks : List String}
    {embeddings : List (List ℚ)} {md : DocMeta} {r : ChunkRec}
    (h : r ∈ buildChunkRecs doc_id chunks embeddings md) :
    r.doc_id = doc_id ∧ ∃ i, r.id = chunkId doc_id i := by
  rcases List.mem_map.mp h with ⟨ic, _, hic⟩
  rw [← hic]
  exact ⟨rfl, ic.1, rfl⟩

theorem length_buildChunkRecs (doc_id : String) (chunks : List String)
    (embeddings : List (List ℚ)) (md : DocMeta) :
    (buildChunkRecs doc_id chunks embeddings md).length = chunks.length := by
  unfold buildChunkRecs
  rw [List.length_map, List.enum_length]

theorem mem_derivedLinkRecs {doc_id : String} {chunks : List String} {e : LinkRec}
    (h : e ∈ derivedLinkRecs doc_id chunks) :
    e.source_id = doc_id ∧ ∃ t, e.id = linkId doc_id t := by
  rcases List.mem_flatMap.mp h with ⟨chunk, _, hc⟩
  rcases List.mem_map.mp hc with ⟨l, _, hl⟩
  rw [← hl]
  exact ⟨rfl, l.1, rfl⟩

theorem mem_derivedRefRecs {hashUrl : String → String} {doc_id : String}
    {chunks : List String} {e : RefRec}
    (h : e ∈ derivedRefRecs hashUrl doc_id chunks) :
    e.source_id = doc_id ∧ ∃ t, e.id = refId hashUrl doc_id t := by
  rcases List.mem_flatMap.mp h with ⟨chunk, _, hc⟩
  rcases List.mem_map.mp hc with ⟨l, _, hl⟩
  rw [← hl]
  exact ⟨rfl, l.2, rfl⟩

/-- The delete-then-reinsert shape of `update_document` on the `notes`
collection: provided no foreign record carries one of this document's chunk
ids (always true for stores built by `add_document`/`update_document`), the
new chunk records land verbatim after the surviving foreign records. -/
theorem updateDocument_notes (hashUrl : String → String) (s : Store) (doc_id : String)
    (new_chunks : List String) (new_embeddings : List (List ℚ))
    (metadata : Option DocMeta) (now : ℚ)
    (hnotes : ∀ r ∈ s.notes, r.doc_id ≠ doc_id → ∀ i, r.id ≠ chunkId doc_id i) :
    (updateDocument hashUrl s doc_id new_chunks new_embeddings metadata now).notes =
      (s.notes.filter fun r => r.doc_id ≠ doc_id) ++
        buildChunkRecs doc_id new_chunks new_embeddings
          (resolveUpdateMeta s doc_id metadata now) := by
  show foldUpsert ChunkRec.id _ _ = _
  apply foldUpsert_eq_append
  · intro r hr y hy
    rcases mem_buildChunkRecs hr with ⟨_, i, hid⟩
    rcases List.mem_filter.mp hy with ⟨hys, hyd⟩
    have hyd2 : y.doc_id ≠ doc_id := by simpa using hyd
    rw [hid]
    exact hnotes y hys hyd2 i
  · exact nodup_keys_buildChunkRecs _ _ _ _

/-- C1-supporting: after `update_document`, the chunk records whose
`doc_id` matches are exactly the freshly built ones. -/
theorem updateDocument_notes_filter (hashUrl : String → String) (s : Store)
    (doc_id : String) (new_chunks : List String) (new_embeddings : List (List ℚ))
    (metadata : Option DocMeta) (now : ℚ)
    (hnotes : ∀ r ∈ s.notes, r.doc_id ≠ doc_id → ∀ i, r.id ≠ chunkId doc_id i) :
    (updateDocument hashUrl s doc_id new_chunks new_embeddings metadata now).notes.filter
        (fun r => r.doc_id = doc_id) =
      buildChunkRecs doc_id new_chunks new_embeddings
        (resolveUpdateMeta s doc_id metadata now) := by
  rw [updateDocument_notes hashUrl s doc_id new_chunks new_embeddings metadata now hnotes]
  rw [List.filter_append]
  have h1 : (s.notes.filter fun r => r.doc_id ≠ doc_id).filter
      (fun r => r.doc_id = doc_id) = [] := by
    rw [List.filter_eq_nil_iff]
    intro r hr
    rcases List.mem_filter.mp hr with ⟨_, hrd⟩
    simpa using hrd
  have h2 : (buildChunkRecs doc_id new_chunks new_embeddings
      (resolveUpdateMeta s doc_id metadata now)).filter (fun r => r.doc_id = doc_id) =
      buildChunkRecs doc_id new_chunks new_embeddings
        (resolveUpdateMeta s doc_id metadata now) := by
    apply List.filter_eq_self.mpr
    intro r hr
    exact decide_eq_true (mem_buildChunkRecs hr).1
  rw [h1, h2, List.nil_append]

/-- C1-supporting: after `update_document`, the `links` edges whose
`source_id` matches are exactly those derived from the new chunks. -/
theorem updateDocument_links_filter (hashUrl : String → String) (s : Store)
    (doc_id : String) (new_chunks : List String) (new_embeddings : List (List ℚ))
    (metadata : Option DocMeta) (now : ℚ)
    (hlinks : ∀ e ∈ s.links, e.source_id ≠ doc_id → ∀ t, e.id ≠ linkId doc_id t) :
    (updateDocument hashUrl s doc_id new_chunks new_embeddings metadata now).links.filter
        (fun e => e.source_id = doc_id) =
      foldUpsert LinkRec.id (derivedLinkRecs doc_id new_chunks) [] := by
  show (foldUpsert LinkRec.id (derivedLinkRecs doc_id new_chunks)
      (s.links.filter fun e => e.source_id ≠ doc_id)).filter
      (fun e => e.source_id = doc_id) = _
  rw [filter_foldUpsert]
  · have h1 : (s.links.filter fun e => e.source_id ≠ doc_id).filter
        (fun e => e.source_id = doc_id) = [] := by
      rw [List.filter_eq_nil_iff]
      intro e he
      rcases List.mem_filter.mp he with ⟨_, hed⟩
      simpa using hed
    rw [h1]
  · intro e he
    exact decide_eq_true (mem_derivedLinkRecs he).1
  · intro y hy hpy r hr
    rcases List.mem_filter.mp hy with ⟨hys, hyd⟩
    have hyd2 : y.source_id ≠ doc_id := by simpa using hyd
    rcases mem_derivedLinkRecs hr with ⟨_, t, hid⟩
    rw [hid]
    exact hlinks y hys hyd2 t

/-- C6-supporting: `update_document` never deletes from `references`; the
matching edges are the derived ones upserted over whatever was already
there. -/
theorem updateDocument_refs_filter (hashUrl : String → String) (s : Store)
    (doc_id : String) (new_chunks : List String) (new_embeddings : List (List ℚ))
    (metadata : Option DocMeta) (now : ℚ)
    (hrefs : ∀ e ∈ s.references, e.source_id ≠ doc_id → ∀ t, e.id ≠ refId hashUrl doc_id t) :
    (updateDocument hashUrl s doc_id new_chunks new_embeddings metadata
        now).references.filter (fun e => e.source_id = doc_id) =
      foldUpsert RefRec.id (derivedRefRecs hashUrl doc_id new_chunks)
        (s.references.filter fun e => e.source_id = doc_id) := by
  show (foldUpsert RefRec.id (derivedRefRecs hashUrl doc_id new_chunks)
      s.references).filter (fun e => e.source_id = doc_id) = _
  rw [filter_foldUpsert]
  · intro e he
    exact decide_eq_true (mem_derivedRefRecs he).1
  · intro y hy hpy r hr
    have hyd : y.source_id ≠ doc_id := of_decide_eq_false hpy
    rcases mem_derivedRefRecs hr with ⟨_, t, hid⟩
    rw [hid]
    exact hrefs y hy hyd t

end NotesKG

namespace NotesKG

/-- C1 (amended): `update_document` deletes all chunk records with matching
`doc_id` and all `links`-collection edges with matching `source_id` before
re-inserting, so that afterwards exactly `len(new_chunks)` chunk records and
only the newly derived wiki-link edges exist for the document; the
`references` collection, however, is NOT purged (see the counterexample).
The hypotheses say no foreign record carries one of this document's ids,
which holds in every store built by `add_document` / `update_document`. -/
theorem C1_update_purges_chunks_and_wiki_edges (hashUrl : String → String)
    (s : Store) (doc_id : String) (new_chunks : List String)
    (new_embeddings : List (List ℚ)) (metadata : Option DocMeta) (now : ℚ)
    (hnotes : ∀ r ∈ s.notes, r.doc_id ≠ doc_id → ∀ i, r.id ≠ chunkId doc_id i)
    (hlinks : ∀ e ∈ s.links, e.source_id ≠ doc_id → ∀ t, e.id ≠ linkId doc_id t) :
    ((updateDocument hashUrl s doc_id new_chunks new_embeddings metadata
          now).notes.filter (fun r => r.doc_id = doc_id)).length = new_chunks.length ∧
      (updateDocument hashUrl s doc_id new_chunks new_embeddings metadata
          now).links.filter (fun e => e.source_id = doc_id) =
        foldUpsert LinkRec.id (derivedLinkRecs doc_id new_chunks) [] := by
  constructor
  · rw [updateDocument_notes_filter hashUrl s doc_id new_chunks new_embeddings
      metadata now hnotes]
    exact length_buildChunkRecs _ _ _ _
  · exact updateDocument_links_filter hashUrl s doc_id new_chunks new_embeddings
      metadata now hlinks

/-- The store after indexing document `D` with three chunks. -/
def storeWithThreeChunks : Store :=
  addDocument (fun u => u) emptyStore "D"
    ["alpha chunk one", "beta chunk two", "gamma chunk three"] [[1], [1], [1]] none

/-- Witness for C1's amended theorem: indexing `D` with 3 chunks, then
re-indexing `D` with 1 chunk, leaves exactly 1 chunk record for `D`. -/
theorem C1_update_purges_witness :
    ((updateDocument (fun u => u) storeWithThreeChunks "D" ["delta only"] [[1]]
          none 7).notes.filter (fun r => r.doc_id = "D")).length = 1 ∧
      (updateDocument (fun u => u) storeWithThreeChunks "D" ["delta only"] [[1]]
          none 7).links.filter (fun e => e.source_id = "D") =
        foldUpsert LinkRec.id (derivedLinkRecs "D" ["delta only"]) [] :=
  C1_update_purges_chunks_and_wiki_edges (fun u => u) storeWithThreeChunks "D"
    ["delta only"] [[1]] none 7
    (by
      have hdoc : ∀ r ∈ storeWithThreeChunks.notes, r.doc_id = "D" := by decide
      intro r hr hne _
      exact absurd (hdoc r hr) hne)
    (by
      intro e he
      rw [show storeWithThreeChunks.links = ([] : List LinkRec) from by decide] at he
      exact absurd he (List.not_mem_nil e))

/-- The store after indexing `D` with one chunk holding an external
Markdown reference. -/
def storeWithOldRef : Store :=
  addDocument (fun u => u) emptyStore "D" ["see [link](http://old.com)"] [[1]] none

/-- C1 counterexample: re-indexing `D` with a chunk that derives no
external references leaves the stale `references` edge for `D` in place —
`update_document` does not delete from the `references` collection, so
"all outgoing edges" is false for reference edges. -/
theorem C1_counterexample :
    (updateDocument (fun u => u) storeWithOldRef "D" ["plain new text"] [[1]]
          none 5).references.map RefRec.url = ["http://old.com"] ∧
      extractExternalRefs "plain new text" = [] ∧
      (updateDocument (fun u => u) storeWithOldRef "D" ["plain new text"] [[1]]
          none 5).references.filter (fun e => e.source_id = "D") ≠ [] := by
  refine ⟨by decide, by decide, by decide⟩

/-- C6: calling `update_document` twice in a row with identical chunks and
embeddings yields the same per-document store state (chunk count, wiki-edge
count, reference-edge count) as calling it once.  The two wall-clock stamps
`now` and `nowSecond` may differ. -/
theorem C6_update_document_idempotent (hashUrl : String → String) (s : Store)
    (doc_id : String) (chunks : List String) (embeddings : List (List ℚ))
    (metadata : Option DocMeta) (now nowSecond : ℚ)
    (hnotes : ∀ r ∈ s.notes, r.doc_id ≠ doc_id → ∀ i, r.id ≠ chunkId doc_id i)
    (hlinks : ∀ e ∈ s.links, e.source_id ≠ doc_id → ∀ t, e.id ≠ linkId doc_id t)
    (hrefs : ∀ e ∈ s.references, e.source_id ≠ doc_id →
      ∀ t, e.id ≠ refId hashUrl doc_id t) :
    (((updateDocument hashUrl (updateDocument hashUrl s doc_id chunks embeddings
            metadata now) doc_id chunks embeddings metadata nowSecond).notes.filter
          (fun r => r.doc_id = doc_id)).length =
        ((updateDocument hashUrl s doc_id chunks embeddings metadata
            now).notes.filter (fun r => r.doc_id = doc_id)).length) ∧
      (((updateDocument hashUrl (updateDocument hashUrl s doc_id chunks embeddings
            metadata now) doc_id chunks embeddings metadata nowSecond).links.filter
          (fun e => e.source_id = doc_id)).length =
        ((updateDocument hashUrl s doc_id chunks embeddings metadata
            now).links.filter (fun e => e.source_id = doc_id)).length) ∧
      (((updateDocument hashUrl (updateDocument hashUrl s doc_id chunks embeddings
            metadata now) doc_id chunks embeddings metadata
            nowSecond).references.filter (fun e => e.source_id = doc_id)).length =
        ((updateDocument hashUrl s doc_id chunks embeddings metadata
            now).references.filter (fun e => e.source_id = doc_id)).length) := by
  have hnotes1 : ∀ r ∈ (updateDocument hashUrl s doc_id chunks embeddings metadata
      now).notes, r.doc_id ≠ doc_id → ∀ i, r.id ≠ chunkId doc_id i := by
    intro r hr hne i
    rw [updateDocument_notes hashUrl s doc_id chunks embeddings metadata now hnotes] at hr
    rcases List.mem_append.mp hr with h | h
    · exact hnotes r (List.mem_filter.mp h).1 hne i
    · exact absurd (mem_buildChunkRecs h).1 hne
  have hlinks1 : ∀ e ∈ (updateDocument hashUrl s doc_id chunks embeddings metadata
      now).links, e.source_id ≠ doc_id → ∀ t, e.id ≠ linkId doc_id t := by
    intro e he hne t
    have he2 : e ∈ foldUpsert LinkRec.id (derivedLinkRecs doc_id chunks)
        (s.links.filter fun x => x.source_id ≠ doc_id) := he
    rcases mem_foldUpsert he2 with h | h
    · exact absurd (mem_derivedLinkRecs h).1 hne
    · exact hlinks e (List.mem_filter.mp h).1 hne t
  have hrefs1 : ∀ e ∈ (updateDocument hashUrl s doc_id chunks embeddings metadata
      now).references, e.source_id ≠ doc_id → ∀ t, e.id ≠ refId hashUrl doc_id t := by
    intro e he hne t
    have he2 : e ∈ foldUpsert RefRec.id (derivedRefRecs hashUrl doc_id chunks)
        s.references := he
    rcases mem_foldUpsert he2 with h | h
    · exact absurd (mem_derivedRefRecs h).1 hne
    · exact hrefs e h hne t
  refine ⟨?_, ?_, ?_⟩
  · rw [updateDocument_notes_filter hashUrl _ doc_id chunks embeddings metadata
      nowSecond hnotes1]
    rw [updateDocument_notes_filter hashUrl s doc_id chunks embeddings metadata
      now hnotes]
    rw [length_buildChunkRecs, length_buildChunkRecs]
  · rw [updateDocument_links_filter hashUrl _ doc_id chunks embeddings metadata
      nowSecond hlinks1]
    rw [updateDocument_links_filter hashUrl s doc_id chunks embeddings metadata
      now hlinks]
  · rw [updateDocument_refs_filter hashUrl _ doc_id chunks embeddings metadata
      nowSecond hrefs1]
    rw [updateDocument_refs_filter hashUrl s doc_id chunks embeddings metadata
      now hrefs]
    apply length_foldUpsert_of_keys_mem
    intro r hr
    exact mem_keysOf_foldUpsert_of_mem_recs (List.mem_map_of_mem RefRec.id hr)

/-- Witness for C6 on an initially empty store, with a chunk deriving both a
wiki edge and a reference edge and distinct wall-clock stamps. -/
theorem C6_update_document_idempotent_witness :
    (((updateDocument (fun u => u) (updateDocument (fun u => u) emptyStore "D"
            ["see [[B]] and [x](http://u)"] [[1]] none 3) "D"
            ["see [[B]] and [x](http://u)"] [[1]] none 4).notes.filter
          (fun r => r.doc_id = "D")).length =
        ((updateDocument (fun u => u) emptyStore "D"
            ["see [[B]] and [x](http://u)"] [[1]] none 3).notes.filter
          (fun r => r.doc_id = "D")).length) ∧
      (((updateDocument (fun u => u) (updateDocument (fun u => u) emptyStore "D"
            ["see [[B]] and [x](http://u)"] [[1]] none 3) "D"
            ["see [[B]] and [x](http://u)"] [[1]] none 4).links.filter
          (fun e => e.source_id = "D")).length =
        ((updateDocument (fun u => u) emptyStore "D"
            ["see [[B]] and [x](http://u)"] [[1]] none 3).links.filter
          (fun e => e.source_id = "D")).length) ∧
      (((updateDocument (fun u => u) (updateDocument (fun u => u) emptyStore "D"
            ["see [[B]] and [x](http://u)"] [[1]] none 3) "D"
            ["see [[B]] and [x](http://u)"] [[1]] none 4).references.filter
          (fun e => e.source_id = "D")).length =
        ((updateDocument (fun u => u) emptyStore "D"
            ["see [[B]] and [x](http://u)"] [[1]] none 3).references.filter
          (fun e => e.source_id = "D")).length) :=
  C6_update_document_idempotent (fun u => u) emptyStore "D"
    ["see [[B]] and [x](http://u)"] [[1]] none 3 4
    (by intro r hr; exact absurd hr (List.not_mem_nil r))
    (by intro e he; exact absurd he (List.not_mem_nil e))
    (by intro e he; exact absurd he (List.not_mem_nil e))

/-- C4: `_update_target_backlinks(target, note_id, note_path)` resolves the
target note only as an existence guard and then reads, edits and writes the
file at `source_path` — the SOURCE note file — and the subsequent link-section
rewrite of `update_obsidian_links` overwrites that same file, so the target
note's file is never written and no `[[source_id]]` backlink survives
anywhere.  Evaluated at a two-file vault: source `notes/A.md`, target note
`B` resolvable in the vector store, one `add_wiki_link` directive with
`update_backlinks=True`. -/
theorem C4_backlink_written_to_source_file :
    updateTargetBacklinks (fun t => if t = "B" then some "beta" else none)
        [("notes/A.md", "Alpha content"), ("notes/B.md", "Beta content")]
        "B" "A.md" "notes/A.md" =
      [("notes/A.md", "Alpha content\n\n[[A.md]]\n"), ("notes/B.md", "Beta content")] ∧
      updateObsidianLinks (fun t => if t = "B" then some "beta" else none) "notes"
          [("notes/A.md", "Alpha content"), ("notes/B.md", "Beta content")]
          "notes/A.md" [{ target_id := "B", add_wiki_link := true }] true =
        .ok [("notes/A.md",
              "Alpha content\n\n---\n## Auto generated references\n[[B|B]]"),
             ("notes/B.md", "Beta content")] ∧
      substrOf "[[A.md]]" "Beta content" = false ∧
      substrOf "[[A.md]]"
        "Alpha content\n\n---\n## Auto generated references\n[[B|B]]" = false :=
  ⟨rfl, rfl, rfl, rfl⟩

end NotesKG
